import Mathlib

/-!
Verification of the mmm mod-manager core against its specification.

The definitions below are a shallow embedding of the Rust sources:
* `src/core/src/instance/mod.rs` — the instance data model and its custom
  serde (de)serializers, modelled on an abstract self-describing value type
  (`Value`) standing for the CBOR data model used by `cbor4ii`;
* `src/core/src/instance/data.rs` — versioned loading and verification;
* `src/core/src/file_tree.rs` — the merge engine (`build_path_tree`);
* `src/edit/src/instance.rs` and `src/edit/src/util.rs` — the editable
  instance operations (`remove_mod`, `rename_mod`, `move_mods`, `save`).

Machine integers (`u32` mod indices) are modelled as `Nat` with explicit
`< 2 ^ 32` bounds where the Rust code checks them.  Fallible code returns
`Except`; a Rust panic is a distinguished error constructor.
-/

namespace Mmm

/-- The type of entry in the mod list (`ModEntryKind` in
`src/core/src/instance/mod.rs`). -/
inductive ModEntryKind where
  | mod
  | separator
deriving DecidableEq, Repr

/-- An entry in the mod list (`ModDeclaration`): a name and a kind. -/
structure ModDeclaration where
  name : String
  kind : ModEntryKind
deriving DecidableEq, Repr

/-- An entry in a profile's mod order (`ModOrderEntry`): the index of the
declaration it refers to (a `u32` in Rust, here a `Nat`) and the activation
state. -/
structure ModOrderEntry where
  index : Nat
  enabled : Bool
deriving DecidableEq, Repr

/-- A profile (`Profile`): display name plus the ordered mod order. -/
structure Profile where
  displayName : String
  modOrder : List ModOrderEntry
deriving DecidableEq, Repr

/-- The persisted instance data (`InstanceData` in
`src/core/src/instance/data.rs`).  The `profiles` field models the Rust
`BTreeMap<CompactString, Profile>` as an association list whose keys are
kept strictly ascending (the map's iteration order). -/
structure InstanceData where
  mods : List ModDeclaration
  profiles : List (String × Profile)
deriving DecidableEq, Repr

/-! ## The serde data model

`Value` stands for the self-describing CBOR data model that `cbor4ii`
(de)serializes through serde: unsigned and negative integers, text strings,
booleans, arrays and maps.  The custom (de)serializers of
`src/core/src/instance/mod.rs` are translated against it: serde structs are
maps with text keys, unit enum variants are their name as text. -/

inductive Value where
  | uint (n : Nat)
  | nint (n : Nat)
  | text (s : String)
  | bool (b : Bool)
  | array (xs : List Value)
  | map (kvs : List (Value × Value))
deriving Repr

/-- Serialization of `ModEntryKind` (derived serde `Serialize`): a unit
variant is encoded as its name. -/
def serializeModEntryKind : ModEntryKind → Value
  | .mod => .text "Mod"
  | .separator => .text "Separator"

/-- `impl Serialize for ModDeclaration`: the bare name string when the kind
is `Mod`, otherwise a two-field struct (map) `{name, type}`. -/
def serializeModDeclaration (d : ModDeclaration) : Value :=
  if d.kind = .mod then .text d.name
  else .map [(.text "name", .text d.name), (.text "type", serializeModEntryKind d.kind)]

/-- `impl Serialize for ModOrderEntry`: a bare unsigned integer equal to the
index when enabled, otherwise the map `{i, e}`. -/
def serializeModOrderEntry (e : ModOrderEntry) : Value :=
  if e.enabled then .uint e.index
  else .map [(.text "i", .uint e.index), (.text "e", .bool e.enabled)]

/-- Derived `Serialize` for `Profile`: a map with the two field names. -/
def serializeProfile (p : Profile) : Value :=
  .map [(.text "display_name", .text p.displayName),
        (.text "mod_order", .array (p.modOrder.map serializeModOrderEntry))]

/-- Derived `Serialize` for `InstanceData`, with the version field emitted
first (`serialize_version` writes `INSTANCE_DATA_VERSION`).  The version is
a parameter so that a file tampered to hold a different version number can
be described. -/
def serializeInstanceDataV (version : Nat) (d : InstanceData) : Value :=
  .map [(.text "version", .uint version),
        (.text "mods", .array (d.mods.map serializeModDeclaration)),
        (.text "profiles", .map (d.profiles.map fun kp => (.text kp.1, serializeProfile kp.2)))]

/-- Serialization of `InstanceData` as the code performs it:
`INSTANCE_DATA_VERSION = 0`. -/
def serializeInstanceData (d : InstanceData) : Value :=
  serializeInstanceDataV 0 d

/-- Decode-level errors.  serde produces all its errors through
`Error::custom`-style constructors carrying only a message; the only message
the surrounding code inspects is the version-mismatch one, so that one is
kept verbatim (`.custom`) and every other decode failure is collapsed to
`.invalid`. -/
inductive DecodeError where
  | custom (msg : String)
  | invalid
deriving DecidableEq, Repr

/-- Deserialization of a `u32` (used for `ModIndex`): an unsigned integer
within `u32` range; anything else is rejected. -/
def deserializeU32 : Value → Except DecodeError Nat
  | .uint n => if n < 2 ^ 32 then .ok n else .error .invalid
  | _ => .error .invalid

/-- The map branch of `impl Deserialize for ModOrderEntry` (`visit_map`):
keys `"i"` and `"e"`, duplicates and unknown fields rejected, both fields
required. -/
def deserializeModOrderEntryMap :
    List (Value × Value) → Option Nat → Option Bool → Except DecodeError ModOrderEntry
  | [], idx?, en? =>
    match idx?, en? with
    | some i, some e => .ok ⟨i, e⟩
    | _, _ => .error .invalid
  | (k, v) :: rest, idx?, en? =>
    match k with
    | .text "i" =>
      if idx?.isSome then .error .invalid
      else
        match deserializeU32 v with
        | .ok n => deserializeModOrderEntryMap rest (some n) en?
        | .error e => .error e
    | .text "e" =>
      if en?.isSome then .error .invalid
      else
        match v with
        | .bool b => deserializeModOrderEntryMap rest idx? (some b)
        | _ => .error .invalid
    | _ => .error .invalid

/-- `impl Deserialize for ModOrderEntry`: a bare unsigned integer up to
`2 ^ 32 - 1` yields an enabled entry (`visit_u8` … `visit_u64`); a negative
integer is rejected by `try_from_idx_signed`; a map goes through
`visit_map`. -/
def deserializeModOrderEntry : Value → Except DecodeError ModOrderEntry
  | .uint n => if n < 2 ^ 32 then .ok ⟨n, true⟩ else .error .invalid
  | .nint _ => .error .invalid
  | .map kvs => deserializeModOrderEntryMap kvs none none
  | _ => .error .invalid

/-- Deserialization of `ModEntryKind` (derived): the variant name as text. -/
def deserializeModEntryKind : Value → Except DecodeError ModEntryKind
  | .text "Mod" => .ok .mod
  | .text "Separator" => .ok .separator
  | _ => .error .invalid

/-- The map branch of `impl Deserialize for ModDeclaration` (`visit_map`):
keys `"name"` and `"type"`, duplicates and unknown fields rejected, both
fields required. -/
def deserializeModDeclarationMap :
    List (Value × Value) → Option String → Option ModEntryKind → Except DecodeError ModDeclaration
  | [], name?, kind? =>
    match name?, kind? with
    | some n, some k => .ok ⟨n, k⟩
    | _, _ => .error .invalid
  | (k, v) :: rest, name?, kind? =>
    match k with
    | .text "name" =>
      if name?.isSome then .error .invalid
      else
        match v with
        | .text s => deserializeModDeclarationMap rest (some s) kind?
        | _ => .error .invalid
    | .text "type" =>
      if kind?.isSome then .error .invalid
      else
        match deserializeModEntryKind v with
        | .ok mk => deserializeModDeclarationMap rest name? (some mk)
        | .error e => .error e
    | _ => .error .invalid

/-- `impl Deserialize for ModDeclaration`: a bare string yields a `Mod`
declaration (`visit_str`); a map goes through `visit_map`. -/
def deserializeModDeclaration : Value → Except DecodeError ModDeclaration
  | .text s => .ok ⟨s, .mod⟩
  | .map kvs => deserializeModDeclarationMap kvs none none
  | _ => .error .invalid

/-- The element loop of a serde sequence visitor: each element through `f`,
the first failure aborting. -/
def deserializeSeq (f : Value → Except DecodeError α) : List Value → Except DecodeError (List α)
  | [] => .ok []
  | v :: rest =>
    match f v with
    | .ok x =>
      match deserializeSeq f rest with
      | .ok xs => .ok (x :: xs)
      | .error e => .error e
    | .error e => .error e

/-- Deserialization of a sequence: an array, each element through `f`. -/
def deserializeList (f : Value → Except DecodeError α) : Value → Except DecodeError (List α)
  | .array xs => deserializeSeq f xs
  | _ => .error .invalid

/-- The field loop of the derived `Deserialize` for `Profile`: keys
`"display_name"` and `"mod_order"`; a derived impl rejects duplicates,
requires both fields and ignores unknown fields. -/
def deserializeProfileMap :
    List (Value × Value) → Option String → Option (List ModOrderEntry) →
    Except DecodeError Profile
  | [], dn?, mo? =>
    match dn?, mo? with
    | some dn, some mo => .ok ⟨dn, mo⟩
    | _, _ => .error .invalid
  | (k, v) :: rest, dn?, mo? =>
    match k with
    | .text "display_name" =>
      if dn?.isSome then .error .invalid
      else
        match v with
        | .text s => deserializeProfileMap rest (some s) mo?
        | _ => .error .invalid
    | .text "mod_order" =>
      if mo?.isSome then .error .invalid
      else
        match deserializeList deserializeModOrderEntry v with
        | .ok mo => deserializeProfileMap rest dn? (some mo)
        | .error e => .error e
    | _ => deserializeProfileMap rest dn? mo?

/-- Derived `Deserialize` for `Profile`: a map. -/
def deserializeProfile : Value → Except DecodeError Profile
  | .map kvs => deserializeProfileMap kvs none none
  | _ => .error .invalid

/-- Ordered insertion into the association list standing for
`BTreeMap<CompactString, Profile>`: keys strictly ascending, an equal key
replaces the stored value. -/
def btreeInsert (k : String) (v : Profile) : List (String × Profile) → List (String × Profile)
  | [] => [(k, v)]
  | (k2, v2) :: rest =>
    if k < k2 then (k, v) :: (k2, v2) :: rest
    else if k = k2 then (k, v) :: rest
    else (k2, v2) :: btreeInsert k v rest

/-- The entry loop deserializing `BTreeMap<CompactString, Profile>`: each
key must be text (a `CompactString`), each value a `Profile`; entries are
inserted into the map as they are read. -/
def deserializeProfilesGo :
    List (Value × Value) → List (String × Profile) →
    Except DecodeError (List (String × Profile))
  | [], acc => .ok acc
  | (k, v) :: rest, acc =>
    match k with
    | .text s =>
      match deserializeProfile v with
      | .ok p => deserializeProfilesGo rest (btreeInsert s p acc)
      | .error e => .error e
    | _ => .error .invalid

/-- Deserialization of the `profiles` field: a map of profiles. -/
def deserializeProfiles : Value → Except DecodeError (List (String × Profile))
  | .map kvs => deserializeProfilesGo kvs []
  | _ => .error .invalid

/-- The instance data as decoded, before verification
(`UnverifiedInstanceData` in `src/core/src/instance/data.rs`). -/
structure UnverifiedInstanceData where
  mods : List ModDeclaration
  profiles : List (String × Profile)
deriving DecidableEq, Repr

/-- `VERSION_MISMATCH_ERROR_PREFIX`, the start of the message produced by
`VersionVisitor` with `INSTANCE_DATA_VERSION = 0`. -/
def versionMismatchPrefix : String := "expected data version 0, found version "

/-- `str::starts_with`, on the characters of the strings. -/
def strStartsWith (p s : String) : Bool := p.data.isPrefixOf s.data

/-- The second half of `str::split_at(n)` (the prefix being ASCII here, the
byte count and the character count coincide). -/
def strDropChars (s : String) (n : Nat) : String := ⟨s.data.drop n⟩

/-- The decimal digit characters of `format!("{v}")` for a digit below ten. -/
def digitChar10 (d : Nat) : Char := Char.ofNat (48 + d)

/-- The decimal character run of a `Nat`, most significant digit first,
written with the same fuel pattern as core's `Nat.toDigitsCore` (the fuel
`n + 1` always suffices). -/
def natChars : Nat → Nat → List Char
  | 0, _ => []
  | fuel + 1, n =>
    if n < 10 then [digitChar10 n]
    else natChars fuel (n / 10) ++ [digitChar10 (n % 10)]

/-- `format!("{v}")` for an unsigned value: its decimal representation. -/
def natRepr (n : Nat) : String := ⟨natChars (n + 1) n⟩

/-- One step of `u32::from_str`: a decimal digit. -/
def parseDigit (c : Char) : Option Nat :=
  if c.isDigit then some (c.toNat - 48) else none

/-- The accumulation loop of `u32::from_str`: each digit is folded in with
an overflow check against `u32` range. -/
def parseU32Go : List Char → Nat → Option Nat
  | [], acc => some acc
  | c :: cs, acc =>
    match parseDigit c with
    | some d => if acc * 10 + d < 2 ^ 32 then parseU32Go cs (acc * 10 + d) else none
    | none => none

/-- `str::parse::<u32>()`: fails on an empty string, a non-digit, or
overflow. -/
def parseU32 (s : String) : Option Nat :=
  if s.data.isEmpty then none else parseU32Go s.data 0

/-- `VersionVisitor` behind `deserialize_version`: accepts exactly the
integer `0`, and rejects any other integer with a custom error whose
message is the prefix followed by the value as printed (a negative integer
is printed signed by `visit_i*`). -/
def deserializeVersion : Value → Except DecodeError Unit
  | .uint v => if v = 0 then .ok () else .error (.custom (versionMismatchPrefix ++ natRepr v))
  | .nint v => .error (.custom (versionMismatchPrefix ++ "-" ++ natRepr (v + 1)))
  | _ => .error .invalid

/-- The field loop of the derived `Deserialize` for
`UnverifiedInstanceData`: fields `version` (through `deserialize_version`),
`mods` and `profiles`; unknown fields ignored. -/
def deserializeUnverifiedMap :
    List (Value × Value) → Bool → Option (List ModDeclaration) →
    Option (List (String × Profile)) → Except DecodeError UnverifiedInstanceData
  | [], ver?, mods?, prof? =>
    match ver?, mods?, prof? with
    | true, some ms, some ps => .ok ⟨ms, ps⟩
    | _, _, _ => .error .invalid
  | (k, v) :: rest, ver?, mods?, prof? =>
    match k with
    | .text "version" =>
      if ver? then .error .invalid
      else
        match deserializeVersion v with
        | .ok _ => deserializeUnverifiedMap rest true mods? prof?
        | .error e => .error e
    | .text "mods" =>
      if mods?.isSome then .error .invalid
      else
        match deserializeList deserializeModDeclaration v with
        | .ok ms => deserializeUnverifiedMap rest ver? (some ms) prof?
        | .error e => .error e
    | .text "profiles" =>
      if prof?.isSome then .error .invalid
      else
        match deserializeProfiles v with
        | .ok ps => deserializeUnverifiedMap rest ver? mods? (some ps)
        | .error e => .error e
    | _ => deserializeUnverifiedMap rest ver? mods? prof?

/-- Derived `Deserialize` for `UnverifiedInstanceData`: a map. -/
def deserializeUnverified : Value → Except DecodeError UnverifiedInstanceData
  | .map kvs => deserializeUnverifiedMap kvs false none none
  | _ => .error .invalid

/-- `InstanceDataVerificationError` of `src/core/src/instance/data.rs`. -/
inductive InstanceDataVerificationError where
  | duplicateModIndex
  | modIndexOutOfRange
deriving DecidableEq, Repr

/-- The entry loop of `UnverifiedInstanceData::verify_profile`: a seen-set
of booleans of length `mods.len()`; an index already seen is a duplicate, an
index past the end is out of range. -/
def verifyProfileGo (modsPresent : List Bool) :
    List ModOrderEntry → Except InstanceDataVerificationError Unit
  | [] => .ok ()
  | e :: rest =>
    match modsPresent[e.index]? with
    | some false => verifyProfileGo (modsPresent.set e.index true) rest
    | some true => .error .duplicateModIndex
    | none => .error .modIndexOutOfRange

/-- `UnverifiedInstanceData::verify_profile`. -/
def verifyProfile (p : Profile) (modsLen : Nat) : Except InstanceDataVerificationError Unit :=
  verifyProfileGo (List.replicate modsLen false) p.modOrder

/-- The profile loop of `UnverifiedInstanceData::verify`. -/
def verifyProfiles (modsLen : Nat) :
    List (String × Profile) → Except InstanceDataVerificationError Unit
  | [] => .ok ()
  | (_, p) :: rest =>
    match verifyProfile p modsLen with
    | .ok _ => verifyProfiles modsLen rest
    | .error e => .error e

/-- `UnverifiedInstanceData::verify`: on success the data carries over. -/
def UnverifiedInstanceData.verify (u : UnverifiedInstanceData) :
    Except InstanceDataVerificationError InstanceData :=
  match verifyProfiles u.mods.length u.profiles with
  | .ok _ => .ok ⟨u.mods, u.profiles⟩
  | .error e => .error e

/-- `InstanceDataOpenError` of `src/core/src/instance/data.rs`.  `.panicked`
stands for the `parse().expect("error contains version number")` panic when
the recovered version suffix does not parse as a `u32`. -/
inductive InstanceDataOpenError where
  | deserialize (e : DecodeError)
  | invalidData (e : InstanceDataVerificationError)
  | openFailed
  | unsupportedVersion (v : Nat)
  | panicked
deriving DecidableEq, Repr

/-- `InstanceData::from_file` after the file has been read into a decoded
value: `UnverifiedInstanceData::from_file`'s error mapping (a custom decode
message starting with the version-mismatch prefix becomes
`UnsupportedVersion` of the parsed number) followed by `verify`. -/
def instanceDataFromValue (v : Value) : Except InstanceDataOpenError InstanceData :=
  match deserializeUnverified v with
  | .error e =>
    .error (match e with
      | .custom msg =>
        if strStartsWith versionMismatchPrefix msg then
          match parseU32 (strDropChars msg versionMismatchPrefix.length) with
          | some n => .unsupportedVersion n
          | none => .panicked
        else .deserialize (.custom msg)
      | .invalid => .deserialize .invalid)
  | .ok u =>
    match u.verify with
    | .ok d => .ok d
    | .error e => .error (.invalidData e)

/-! ## Editable-instance operations (`src/edit/src/instance.rs`, `util.rs`) -/

/-- One adjacent swap `slice.swap(i, i + 1)`; out-of-range indices leave the
list unchanged (the Rust code never performs an out-of-range swap on the
inputs it is given). -/
def swapAdj (l : List α) (i : Nat) : List α :=
  match l[i]?, l[i + 1]? with
  | some a, some b => (l.set i b).set (i + 1) a
  | _, _ => l

/-- Sorted insertion, the building block of `sortNat`. -/
def insertSorted (x : Nat) : List Nat → List Nat
  | [] => [x]
  | y :: ys => if x ≤ y then x :: y :: ys else y :: insertSorted x ys

/-- The collected selection indices in ascending order, modelling
`vec.sort_unstable()` in `move_multiple` (the selection is a set, so
stability is immaterial). -/
def sortNat (l : List Nat) : List Nat := l.foldr insertSorted []

/-- `item_indices.partition_point(|from| *from <= to + i)` where `i` is the
offset of `*from` within `item_indices`: on the strictly ascending lists the
function receives, the partition point is the length of the satisfying
prefix. -/
def splitPoint (items : List Nat) (tgt : Nat) : Nat :=
  (items.enum.takeWhile fun p => p.2 ≤ tgt + p.1).length

/-- `move_multiple` of `src/edit/src/util.rs` (note: in the source it
returns `()` — it moves the items in place and returns no index).  The left
group is shifted right, rightmost item first; the right group is shifted
left, leftmost item first; every move is a chain of adjacent swaps. -/
def moveMultiple (l : List α) (fromIdx : List Nat) (tgt : Nat) : List α :=
  let items := sortNat fromIdx
  let split := splitPoint items tgt
  let left := items.take split
  let right := items.drop split
  let l1 := (left.enum.reverse).foldl
    (fun acc p => (List.range' p.2 (tgt + p.1 - p.2)).foldl (fun a idx => swapAdj a idx) acc) l
  (right.enum).foldl
    (fun acc p =>
      ((List.range' (tgt + left.length + 1 + p.1) (p.2 + 1 - (tgt + left.length + 1 + p.1))).reverse).foldl
        (fun a idx => swapAdj a (idx - 1)) acc) l1

/-- Modelled from the spec: `ModOrderEntry::decrement_index` is called by
`EditableInstance::remove_mod` but its definition is not among the given
core sources; the spec fixes its meaning — "decrement every surviving entry
whose `index > removed`" — so it subtracts one from the index. -/
def ModOrderEntry.decrementIndex (e : ModOrderEntry) : ModOrderEntry :=
  { e with index := e.index - 1 }

/-- The `retain_mut` closure of `EditableInstance::remove_mod` applied to
one profile's order: drop the entry equal to the removed index, decrement
every entry above it. -/
def removeModOrderUpdate (idx : Nat) (order : List ModOrderEntry) : List ModOrderEntry :=
  order.filterMap fun e =>
    if e.index = idx then none
    else some (if idx < e.index then e.decrementIndex else e)

/-- The in-memory effect of `EditableInstance::remove_mod` on the instance
data: every profile's order is filtered and shifted, and the declaration is
removed from the mod list (`TiVec::remove`, which panics when out of range;
`eraseIdx` is then the identity). -/
def removeMod (d : InstanceData) (idx : Nat) : InstanceData :=
  { mods := d.mods.eraseIdx idx
    profiles := d.profiles.map fun kp =>
      (kp.1, { kp.2 with modOrder := removeModOrderUpdate idx kp.2.modOrder }) }

/-- `WriteTarget` of `src/edit/src/writer.rs`. -/
inductive WriteTarget where
  | instanceData
deriving DecidableEq, Repr

/-- `WriteRequest` of `src/edit/src/writer.rs`; the serialised content is a
`Value` in this model. -/
structure WriteRequest where
  content : Value
  target : WriteTarget

/-- The in-memory state of `EditableInstance` that the editing operations
touch: the data, the current profile name and the `changed` flag. -/
structure EditableInstance where
  data : InstanceData
  currentProfile : String
  changed : Bool

/-- `RenameModError` of `src/edit/src/instance.rs`; `.panicked` stands for
the out-of-range indexing panic of `self.data.mods[idx]`. -/
inductive RenameModError where
  | alreadyExists
  | invalidName
  | ioError
  | panicked
deriving DecidableEq, Repr

/-- `EditableInstance::rename_mod`.  The two effects this model cannot
perform are parameters: `fsRenameOk` is whether `fs::rename` on the mod
directory succeeds (attempted only when the declaration's kind is `Mod`,
since the edit crate's `mod_dir` — modelled from the spec, its source not
being among the given files — returns a path exactly for mods with a
directory), and `nameOk` is whether `ModDeclaration::new` (modelled from the
spec: the name validation of the naming-safety policy, also not among the
given files) accepts the new name.  The `changed` flag is never written. -/
def renameMod (s : EditableInstance) (idx : Nat) (newName : String)
    (nameOk : Bool) (fsRenameOk : Bool) : Except RenameModError EditableInstance :=
  if s.data.mods.any (fun m => m.name = newName) then .error .alreadyExists
  else
    match s.data.mods[idx]? with
    | none => .error .panicked
    | some decl =>
      if decl.kind = ModEntryKind.mod && !fsRenameOk then .error .ioError
      else if !nameOk then .error .invalidName
      else .ok { s with data := { s.data with mods := s.data.mods.set idx ⟨newName, decl.kind⟩ } }

/-- `EditableInstance::save`: does nothing when `changed` is false;
otherwise clears `changed`, serialises the data and enqueues one write
request (the serialisation, infallible in this model, is enqueued). -/
def save (s : EditableInstance) : EditableInstance × Option WriteRequest :=
  if !s.changed then (s, none)
  else ({ s with changed := false },
        some ⟨serializeInstanceData s.data, WriteTarget.instanceData⟩)

/-! ## Merge engine (`src/core/src/file_tree.rs`)

A mod's on-disk directory tree as `iter_dir` observes it through `read_dir`:
each entry has a file name (the result of `OsString::into_string`, `none`
when the name is not valid UTF-8 — the `.unwrap()` then panics) and is
either a directory with its own entries or a non-directory (`file_type()`
reports symlinks as non-directories without following them). -/

inductive FsNode where
  | dir (entries : List (Option String × FsNode))
  | file

/-- The entries of one directory as `read_dir` yields them. -/
abbrev FsEntries := List (Option String × FsNode)

/-- `entry.file_type().is_dir()`. -/
def FsNode.isDir : FsNode → Bool
  | .dir _ => true
  | .file => false

/-- `TreeNodeKind` of `src/core/src/file_tree.rs`: a directory node or a
file node carrying its providers, highest priority first. -/
inductive TreeNodeKind where
  | dir
  | file (providingMods : List Nat)
deriving DecidableEq, Repr

/-- A node of the merge tree (`TreeNode` plus its child list: the arena tree
of `nary_tree` is modelled as a rose tree, node ids as name paths — sound
because a child is created only when no sibling already has its name). -/
inductive FileTree where
  | node (name : String) (kind : TreeNodeKind) (children : List FileTree)

abbrev FileChildren := List FileTree

def FileTree.name : FileTree → String
  | .node n _ _ => n

def FileTree.kind : FileTree → TreeNodeKind
  | .node _ k _ => k

def FileTree.children : FileTree → FileChildren
  | .node _ _ cs => cs

/-- `UnresolvedTreeBuildError`.  The `TypeMismatch(NodeId)` payload is
replaced by exactly the data `with_context` later reads from the node id:
the names of the node's ancestors in root-first order (`nary_tree`'s
`ancestors()` yields strict ancestors only, root included — compare
`staging.rs`, which has to chain the node itself back on), the node's own
name, and its recorded kind.  `.panic` stands for the `.unwrap()` panic on a
non-UTF-8 file name; `.outOfFuel` is the artificial bound of the fuelled
recursion (never reached with the fuel `buildPathTree` passes). -/
inductive UnresolvedErr where
  | io
  | typeMismatch (ancestorPath : List String) (name : String) (kind : TreeNodeKind)
  | panic
  | outOfFuel
deriving DecidableEq, Repr

/-- `add_to_existing_node`: directories merge with directories, a file entry
appends its mod to an existing file node's providers, and a kind clash is a
type mismatch. -/
def addToExistingNode (t : FileTree) (modIndex : Nat) (expectDir : Bool)
    (parentPath : List String) : Except UnresolvedErr FileTree :=
  match t with
  | .node n k cs =>
    match k, expectDir with
    | .dir, true => .ok (.node n .dir cs)
    | .file ps, false => .ok (.node n (.file (ps ++ [modIndex])) cs)
    | .dir, false => .error (.typeMismatch parentPath n .dir)
    | .file ps, true => .error (.typeMismatch parentPath n (.file ps))

/-- `create_dir_node` (appended at the end of the parent's children). -/
def createDirNode (n : String) : FileTree := .node n .dir []

/-- `create_file_node`. -/
def createFileNode (modIndex : Nat) (n : String) : FileTree :=
  .node n (.file [modIndex]) []

/-- One directory entry merged into a children list:
`find_child_with_name` scans the children in order; a found child goes
through `add_to_existing_node`, an absent name is appended at the end. -/
def mergeEntry (modIndex : Nat) (n : String) (expectDir : Bool)
    (cs : FileChildren) (parentPath : List String) : Except UnresolvedErr FileChildren :=
  match cs with
  | [] => .ok [if expectDir then createDirNode n else createFileNode modIndex n]
  | c :: rest =>
    if c.name = n then
      match addToExistingNode c modIndex expectDir parentPath with
      | .ok c2 => .ok (c2 :: rest)
      | .error e => .error e
    else
      match mergeEntry modIndex n expectDir rest parentPath with
      | .ok rest2 => .ok (c :: rest2)
      | .error e => .error e

/-- The `for entry in fs::read_dir(&dir)?` loop of `iter_dir` over one
directory's entries: the name is unwrapped first (panic when not UTF-8),
then the entry is merged into the current node's children. -/
def mergeLevel (modIndex : Nat) (es : FsEntries) (cs : FileChildren)
    (parentPath : List String) : Except UnresolvedErr FileChildren :=
  match es with
  | [] => .ok cs
  | (none, _) :: _ => .error .panic
  | (some n, fsn) :: rest =>
    match mergeEntry modIndex n fsn.isDir cs parentPath with
    | .ok cs2 => mergeLevel modIndex rest cs2 parentPath
    | .error e => .error e

/-! The explicit-stack walk of `iter_dir`, written as the equivalent
recursion: popping from the `dirs_to_visit` vector visits the subdirectories
of a directory after all of its entries are merged, in reverse discovery
order, depth first — `walkNode` merges a directory's entries into the
current node (`mergeLevel`) and then descends (`walkSubdirs`, which
processes the entry list from its tail forward, entering each subdirectory's
node by name through `walkChild`).  `fuel` bounds the recursion depth; every
call strictly decreases it, and `buildPathTree` passes more than the walk
can consume. -/

mutual
def walkNode (fuel : Nat) (modIndex : Nat) (es : FsEntries) (t : FileTree)
    (path : List String) : Except UnresolvedErr FileTree :=
  match fuel with
  | 0 => .error .outOfFuel
  | fuel + 1 =>
    match t with
    | .node n k cs =>
      match mergeLevel modIndex es cs path with
      | .error e => .error e
      | .ok cs2 =>
        match walkSubdirs fuel modIndex es cs2 path with
        | .error e => .error e
        | .ok cs3 => .ok (.node n k cs3)
termination_by structural fuel

def walkSubdirs (fuel : Nat) (modIndex : Nat) (es : FsEntries) (cs : FileChildren)
    (path : List String) : Except UnresolvedErr FileChildren :=
  match fuel with
  | 0 => .error .outOfFuel
  | fuel + 1 =>
    match es with
    | [] => .ok cs
    | (name, fsn) :: rest =>
      match walkSubdirs fuel modIndex rest cs path with
      | .error e => .error e
      | .ok cs2 =>
        match name, fsn with
        | some n, .dir subEs => walkChild fuel modIndex subEs cs2 n path
        | _, _ => .ok cs2
termination_by structural fuel

def walkChild (fuel : Nat) (modIndex : Nat) (subEs : FsEntries) (cs : FileChildren)
    (n : String) (path : List String) : Except UnresolvedErr FileChildren :=
  match fuel with
  | 0 => .error .outOfFuel
  | fuel + 1 =>
    match cs with
    | [] => .ok []
    | c :: rest =>
      if c.name = n then
        match walkNode fuel modIndex subEs c (path ++ [n]) with
        | .error e => .error e
        | .ok c2 => .ok (c2 :: rest)
      else
        match walkChild fuel modIndex subEs rest n path with
        | .error e => .error e
        | .ok rest2 => .ok (c :: rest2)
termination_by structural fuel
end

/-- What the merge engine consumes of an `Instance`
(`src/core/src/instance/mod.rs`): the declared mods, the active profile's
mod order, and — standing for the filesystem under `base/mods/` — the
directory listing found at `mod_dir(decl) = base/mods/<decl.name>`, `none`
when that directory does not exist (so `read_dir` and `symlink_metadata`
fail on it). -/
structure MergeInstance where
  mods : List ModDeclaration
  modOrder : List ModOrderEntry
  fsdir : String → Option FsEntries

/-- First entry with the given (valid UTF-8) name in a directory listing. -/
def lookupEntryNamed : FsEntries → String → Option FsNode
  | [], _ => none
  | (name, fsn) :: rest, n => if name = some n then some fsn else lookupEntryNamed rest n

/-- `fs::symlink_metadata(mod_dir/<path>).map(|m| m.is_dir())`: `none` is
the error case (no such entry), otherwise whether the entry is a directory.
The empty path is the mod directory itself. -/
def statIsDir : FsEntries → List String → Option Bool
  | _, [] => some true
  | es, n :: rest =>
    match lookupEntryNamed es n with
    | some (.dir subEs) => if rest.isEmpty then some true else statIsDir subEs rest
    | some .file => if rest.isEmpty then some false else none
    | none => none

/-- `TreeBuildError` of `src/core/src/file_tree.rs`, extended with the two
non-error outcomes the model distinguishes: the non-UTF-8 file-name panic
and the artificial fuel bound. -/
inductive TreeBuildError where
  | io
  | typeMismatch (msg : String)
  | panicked
  | outOfFuel
deriving DecidableEq, Repr

/-- The scan of `UnresolvedTreeBuildError::with_context` over all declared
mods: skip the mod equal (by value) to the erroring declaration, stat the
node path under every other mod's directory — an error aborts the whole
enrichment as `Io` — and record the names whose stat result differs from
`expected_dir`. -/
def conflictingModNames (fsdir : String → Option FsEntries) (modDecl : ModDeclaration)
    (relPath : List String) (expectedDir : Bool) :
    List ModDeclaration → Except TreeBuildError (List String)
  | [] => .ok []
  | other :: rest =>
    if other = modDecl then conflictingModNames fsdir modDecl relPath expectedDir rest
    else
      match fsdir other.name with
      | none => .error .io
      | some es =>
        match statIsDir es relPath with
        | none => .error .io
        | some isDir =>
          if isDir != expectedDir then
            match conflictingModNames fsdir modDecl relPath expectedDir rest with
            | .ok names => .ok (other.name :: names)
            | .error e => .error e
          else conflictingModNames fsdir modDecl relPath expectedDir rest

/-- The two `format!` messages of `with_context`, chosen by the conflicting
node's recorded kind; the recorded names are joined with `"', '"`. -/
def typeMismatchMessage (name : String) (modName : String) (kind : TreeNodeKind)
    (conflicting : List String) : String :=
  let joined := String.intercalate "', '" conflicting
  match kind with
  | .dir =>
    "'" ++ name ++ "' is used as both a directory and a file by different mods: " ++
      "it's a file in '" ++ modName ++ "', but a directory in '" ++ joined ++ "'"
  | .file _ =>
    "'" ++ name ++ "' is used as both a directory and a file by different mods: " ++
      "it's a directory in '" ++ modName ++ "', but a file in '" ++ joined ++ "'"

/-- `UnresolvedTreeBuildError::with_context`.  The `node_path` built from
the ancestors starts with the root name `"."`; joined onto a mod directory
that leading component resolves to the directory itself, so the lookup path
is the ancestor path with the `"."` dropped.  `expected_dir` is whether the
node's recorded kind is `File`. -/
def withContext (inst : MergeInstance) (modDecl : ModDeclaration) :
    UnresolvedErr → TreeBuildError
  | .io => .io
  | .panic => .panicked
  | .outOfFuel => .outOfFuel
  | .typeMismatch ancestorPath name kind =>
    let expectedDir := match kind with | .file _ => true | .dir => false
    match conflictingModNames inst.fsdir modDecl (ancestorPath.drop 1) expectedDir inst.mods with
    | .error e => e
    | .ok names => .typeMismatch (typeMismatchMessage name modDecl.name kind names)

/-- The mod loop of `build_path_tree` over the (already reversed) mod order:
disabled entries are skipped, the declaration is looked up (an out-of-range
index panics), `Separator` declarations are skipped, and each remaining
mod's directory is walked into the accumulated tree, errors enriched through
`with_context`. -/
def buildPathTreeGo (fuel : Nat) (inst : MergeInstance) :
    List ModOrderEntry → FileTree → Except TreeBuildError FileTree
  | [], t => .ok t
  | e :: rest, t =>
    if e.enabled = false then buildPathTreeGo fuel inst rest t
    else
      match inst.mods[e.index]? with
      | none => .error .panicked
      | some decl =>
        if decl.kind = ModEntryKind.separator then buildPathTreeGo fuel inst rest t
        else
          match inst.fsdir decl.name with
          | none => .error (withContext inst decl .io)
          | some es =>
            match walkNode fuel e.index es t ["."] with
            | .ok t2 => buildPathTreeGo fuel inst rest t2
            | .error err => .error (withContext inst decl err)

/-- The root the tree builder starts from: name `"."`, kind `Dir`. -/
def rootTree : FileTree := .node "." .dir []

/-- `build_path_tree`: iterate the active mod order in reverse (highest
priority first) over the fresh root.  `fuel` is an artifact of the
embedding — a bound on the recursion depth of the fuelled walk that the
Rust loop does not need (its filesystem is finite).  Exhausting it yields
the distinguished `.outOfFuel`, never `.ok`, so every theorem below holds
for every fuel. -/
def buildPathTree (fuel : Nat) (inst : MergeInstance) : Except TreeBuildError FileTree :=
  buildPathTreeGo fuel inst inst.modOrder.reverse rootTree

/-! Specification-side functions the merge-engine theorems are stated
with. -/

/-- Whether a directory listing has an entry named `name` (names compared as
the walk sees them, `Option String`). -/
def hasEntryName : FsEntries → Option String → Bool
  | [], _ => false
  | (nm, _) :: rest, name => nm == name || hasEntryName rest name

mutual
/-- Well-formedness of a directory tree as any real filesystem satisfies it:
sibling entry names are distinct at every level. -/
def wfN : FsNode → Bool
  | .dir es => wfE es
  | .file => true
termination_by structural n => n
def wfE : FsEntries → Bool
  | [] => true
  | (name, fsn) :: rest => !hasEntryName rest name && wfN fsn && wfE rest
termination_by structural es => es
end

mutual
/-- Every entry name in the tree is valid UTF-8 (is `some`). -/
def namesValidN : FsNode → Bool
  | .dir es => namesValidE es
  | .file => true
termination_by structural n => n
def namesValidE : FsEntries → Bool
  | [] => true
  | (name, fsn) :: rest => name.isSome && namesValidN fsn && namesValidE rest
termination_by structural es => es
end

/-- Whether a mod's directory listing contains a (non-directory) file at the
relative path `p`. -/
def hasFileAt : FsEntries → List String → Bool
  | _, [] => false
  | es, n :: rest =>
    match lookupEntryNamed es n with
    | some .file => rest.isEmpty
    | some (.dir subEs) => if rest.isEmpty then false else hasFileAt subEs rest
    | none => false

/-- An order entry the walk does not skip: enabled, in range, and declaring
a real mod (not a separator). -/
def eligible (inst : MergeInstance) (e : ModOrderEntry) : Bool :=
  e.enabled &&
    match inst.mods[e.index]? with
    | some d => d.kind == ModEntryKind.mod
    | none => false

/-- Whether the mod at index `m` provides a file at relative path `p`
(through the directory at `base/mods/<name>`). -/
def providesAt (inst : MergeInstance) (m : Nat) (p : List String) : Bool :=
  match inst.mods[m]? with
  | some d =>
    match inst.fsdir d.name with
    | some es => hasFileAt es p
    | none => false
  | none => false

/-- The providers a list of order entries contributes to the path `p`, in
iteration order: the eligible entries' indices filtered to those providing
`p`. -/
def orderContrib (inst : MergeInstance) (entries : List ModOrderEntry) (p : List String) :
    List Nat :=
  ((entries.filter (eligible inst)).map (·.index)).filter fun m => providesAt inst m p

/-- The spec's provider list for path `p`: the active order iterated from
highest priority to lowest (reverse), filtered to eligible entries providing
`p`. -/
def orderedProviders (inst : MergeInstance) (p : List String) : List Nat :=
  orderContrib inst inst.modOrder.reverse p

/-- First child with the given name (`find_child_with_name`). -/
def findNamed : FileChildren → String → Option FileTree
  | [], _ => none
  | c :: rest, n => if c.name = n then some c else findNamed rest n

/-- Navigation from a node along a path of child names. -/
def navTree : FileTree → List String → Option FileTree
  | t, [] => some t
  | t, n :: rest =>
    match findNamed t.children n with
    | some c => navTree c rest
    | none => none

/-- The providers recorded at path `p` under a children list: the
`providing_mods` of the file node there, `[]` when the path is absent, a
directory, or empty. -/
def providersAtPath : FileChildren → List String → List Nat
  | _, [] => []
  | cs, n :: rest =>
    match findNamed cs n with
    | some (.node _ k csc) =>
      match rest with
      | [] =>
        match k with
        | .file ps => ps
        | .dir => []
      | _ => providersAtPath csc rest
    | none => []

/-- Append one child at the end of a children list (what `append` on a
`nary_tree` node does). -/
def appendChild : FileChildren → FileTree → FileChildren
  | [], t => [t]
  | c :: rest, t => c :: appendChild rest t

/-- Replace the first child with the given name. -/
def replaceNamed : FileChildren → String → FileTree → FileChildren
  | [], _, _ => []
  | c :: rest, n, t =>
    if c.name = n then t :: rest else c :: replaceNamed rest n t

/-- All entry names of one directory level are valid UTF-8. -/
def levelNamesOk : FsEntries → Bool
  | [] => true
  | (name, _) :: rest => name.isSome && levelNamesOk rest

/-- Instance-level filesystem well-formedness: every declared mod's
directory listing (when present) has distinct sibling names throughout. -/
def instFsWF (inst : MergeInstance) : Bool :=
  inst.mods.all fun d =>
    match inst.fsdir d.name with
    | some es => wfE es
    | none => true

/-! Concrete instances the closed theorems below evaluate the merge engine
on. -/

/-- Two mods both providing the file `cfg.ini` (the spec's conflicting-file
scenario): `A` is mod 0, `B` is mod 1, both enabled, `B` later in the order
(higher priority). -/
def instW2 : MergeInstance where
  mods := [⟨"A", .mod⟩, ⟨"B", .mod⟩]
  modOrder := [⟨0, true⟩, ⟨1, true⟩]
  fsdir := fun nm =>
    if nm = "A" then some [(some "cfg.ini", .file)]
    else if nm = "B" then some [(some "cfg.ini", .file)]
    else none

/-- A dir-vs-file conflict at the top level: `A` has the directory `x`, `B`
the file `x`, both enabled mods. -/
def cex3 : MergeInstance where
  mods := [⟨"A", .mod⟩, ⟨"B", .mod⟩]
  modOrder := [⟨0, true⟩, ⟨1, true⟩]
  fsdir := fun nm =>
    if nm = "A" then some [(some "x", .dir [(some "y", .file)])]
    else if nm = "B" then some [(some "x", .file)]
    else none

/-- A dir-vs-file conflict between `A` and `B` in the presence of a
`Separator` declaration `S` (no directory on disk, as none is created for
separators). -/
def cex4a : MergeInstance where
  mods := [⟨"A", .mod⟩, ⟨"B", .mod⟩, ⟨"S", .separator⟩]
  modOrder := [⟨0, true⟩, ⟨1, true⟩]
  fsdir := fun nm =>
    if nm = "A" then some [(some "x", .file)]
    else if nm = "B" then some [(some "x", .dir [])]
    else none

/-- A dir-vs-file conflict at the nested path `d/x` between `A` and `B`;
the third mod `C` has the directory `d` but no entry at all at `d/x`. -/
def cex4b : MergeInstance where
  mods := [⟨"A", .mod⟩, ⟨"B", .mod⟩, ⟨"C", .mod⟩]
  modOrder := [⟨0, true⟩, ⟨1, true⟩, ⟨2, true⟩]
  fsdir := fun nm =>
    if nm = "A" then some [(some "d", .dir [(some "x", .file)])]
    else if nm = "B" then some [(some "d", .dir [(some "x", .dir [])])]
    else if nm = "C" then some [(some "d", .dir [(some "z", .file)])]
    else none

/-- A mod whose directory contains an entry with a non-UTF-8 name (`none`),
nested below `sub`. -/
def cex9 : MergeInstance where
  mods := [⟨"A", .mod⟩]
  modOrder := [⟨0, true⟩]
  fsdir := fun nm =>
    if nm = "A" then some [(some "sub", .dir [(none, .file)])]
    else none

/-! ## Theorems -/

/-- C7: with the order `[0..10)`, selection `{1, 3, 8}` and target `5`,
`move_multiple` produces the final order `[0, 2, 4, 5, 6, 1, 3, 8, 7, 9]`,
and the first selected entry (`1`) ends at index `5` — the value
`move_mods` is declared to return; but `move_multiple` in
`src/edit/src/util.rs` returns `()`, so `move_mods`'s
`move_multiple(..).into::<ModOrderIndex>()` has no index to convert and the
claimed return value does not exist in the code. -/
theorem move_multiple_example_eval :
    moveMultiple (List.range 10) [1, 3, 8] 5 = [0, 2, 4, 5, 6, 1, 3, 8, 7, 9] ∧
    (moveMultiple (List.range 10) [1, 3, 8] 5).indexOf 1 = 5 := by
  constructor <;> rfl

theorem removeModOrderUpdate_forall₂ (i : Nat) (order : List ModOrderEntry) :
    List.Forall₂ (fun e e2 : ModOrderEntry =>
        e2.enabled = e.enabled ∧ e2.index = if i < e.index then e.index - 1 else e.index)
      (order.filter fun e => e.index != i) (removeModOrderUpdate i order) := by
  induction order with
  | nil => simp [removeModOrderUpdate]
  | cons e rest ih =>
    by_cases h : e.index = i
    · simpa [removeModOrderUpdate, List.filter_cons, h] using ih
    · by_cases h2 : i < e.index
      · simpa [removeModOrderUpdate, List.filter_cons, h, h2, ModOrderEntry.decrementIndex]
          using ih
      · simpa [removeModOrderUpdate, List.filter_cons, h, h2] using ih

/-- C8: after `remove_mod(i)`, in every profile the entries referring to mod
`i` are removed (positionally: the new order is related entry by entry to
the old order filtered of index `i`), each surviving entry keeps its enabled
state, keeps its index when it was below `i` and has it decremented by
exactly one when it was above `i`; and every surviving declaration is
unchanged, at index `j` for `j < i` and at `j - 1` for `j > i`. -/
theorem remove_mod_reindexes (d : InstanceData) (i : Nat) :
    List.Forall₂ (fun op np : String × Profile =>
        np.1 = op.1 ∧ np.2.displayName = op.2.displayName ∧
        List.Forall₂ (fun e e2 : ModOrderEntry =>
            e2.enabled = e.enabled ∧ e2.index = if i < e.index then e.index - 1 else e.index)
          (op.2.modOrder.filter fun e => e.index != i) np.2.modOrder)
      d.profiles (removeMod d i).profiles ∧
    (∀ j, j < i → (removeMod d i).mods[j]? = d.mods[j]?) ∧
    (∀ j, i < j → (removeMod d i).mods[j - 1]? = d.mods[j]?) := by
  refine ⟨?_, ?_, ?_⟩
  · have : ∀ l : List (String × Profile),
        List.Forall₂ (fun op np : String × Profile =>
          np.1 = op.1 ∧ np.2.displayName = op.2.displayName ∧
          List.Forall₂ (fun e e2 : ModOrderEntry =>
              e2.enabled = e.enabled ∧ e2.index = if i < e.index then e.index - 1 else e.index)
            (op.2.modOrder.filter fun e => e.index != i) np.2.modOrder)
        l (l.map fun kp => (kp.1, { kp.2 with modOrder := removeModOrderUpdate i kp.2.modOrder })) := by
      intro l
      induction l with
      | nil => simp
      | cons kp rest ih =>
        exact List.Forall₂.cons ⟨rfl, rfl, removeModOrderUpdate_forall₂ i kp.2.modOrder⟩ ih
    exact this d.profiles
  · intro j hj
    show (d.mods.eraseIdx i)[j]? = d.mods[j]?
    rw [List.getElem?_eraseIdx]
    simp [hj]
  · intro j hj
    show (d.mods.eraseIdx i)[j - 1]? = d.mods[j]?
    rw [List.getElem?_eraseIdx]
    have h1 : ¬ (j - 1 < i) := by omega
    have h2 : j - 1 + 1 = j := by omega
    simp [h1, h2]

/-- C10: a successful `rename_mod` leaves the `changed` flag exactly as it
was; in particular, starting from an unchanged instance, `save()` after the
rename enqueues no write request and leaves the state untouched, so the
renamed declaration is not persisted. -/
theorem rename_mod_preserves_changed (s : EditableInstance) (idx : Nat) (n : String)
    (nameOk fsRenameOk : Bool) (s2 : EditableInstance)
    (h : renameMod s idx n nameOk fsRenameOk = .ok s2) (h0 : s.changed = false) :
    s2.changed = false ∧ (save s2).2 = none ∧ (save s2).1 = s2 := by
  have hc : s2.changed = false := by
    unfold renameMod at h
    split at h
    · exact absurd h (by simp)
    · split at h
      · exact absurd h (by simp)
      · split at h
        · exact absurd h (by simp)
        · split at h
          · exact absurd h (by simp)
          · cases Except.ok.inj h
            exact h0
  refine ⟨hc, ?_, ?_⟩ <;> simp [save, hc]

theorem verifyProfileGo_ok_iff (order : List ModOrderEntry) :
    ∀ seen : List Bool, verifyProfileGo seen order = .ok () ↔
      ((∀ e ∈ order, seen[e.index]? = some false) ∧ (order.map (·.index)).Nodup) := by
  induction order with
  | nil => simp [verifyProfileGo]
  | cons e rest ih =>
    intro seen
    rw [verifyProfileGo]
    cases hs : seen[e.index]? with
    | none => simp [hs, List.forall_mem_cons]
    | some b =>
      cases b with
      | true => simp [hs, List.forall_mem_cons]
      | false =>
        have hlen : e.index < seen.length := by
          by_contra hc
          rw [List.getElem?_eq_none (by omega)] at hs
          exact Option.noConfusion hs
        have key : ∀ j : Nat, (seen.set e.index true)[j]? = some false ↔
            (seen[j]? = some false ∧ j ≠ e.index) := by
          intro j
          by_cases hj : j = e.index
          · subst hj
            rw [List.getElem?_set_self (by omega)]
            simp
          · rw [List.getElem?_set_ne (by omega)]
            simp [hj]
        rw [ih, List.forall_mem_cons]
        constructor
        · rintro ⟨h1, h2⟩
          refine ⟨⟨hs, fun e2 he2 => ((key e2.index).1 (h1 e2 he2)).1⟩, ?_⟩
          rw [List.map_cons, List.nodup_cons]
          refine ⟨?_, h2⟩
          intro hmem
          obtain ⟨e2, he2, hidx⟩ := List.mem_map.1 hmem
          exact ((key e2.index).1 (h1 e2 he2)).2 hidx
        · rintro ⟨⟨_, h1⟩, h2⟩
          rw [List.map_cons, List.nodup_cons] at h2
          refine ⟨fun e2 he2 => (key e2.index).2 ⟨h1 e2 he2, ?_⟩, h2.2⟩
          intro hc
          exact h2.1 (List.mem_map.2 ⟨e2, he2, hc⟩)

theorem verifyProfile_ok_iff (p : Profile) (len : Nat) :
    verifyProfile p len = .ok () ↔
      ((p.modOrder.map (·.index)).Nodup ∧ ∀ e ∈ p.modOrder, e.index < len) := by
  rw [verifyProfile, verifyProfileGo_ok_iff]
  have key : ∀ j : Nat, (List.replicate len false)[j]? = some false ↔ j < len := by
    intro j
    rw [List.getElem?_replicate]
    by_cases h : j < len <;> simp [h]
  constructor
  · rintro ⟨h1, h2⟩
    exact ⟨h2, fun e he => (key e.index).1 (h1 e he)⟩
  · rintro ⟨h1, h2⟩
    exact ⟨fun e he => (key e.index).2 (h2 e he), h1⟩

theorem verifyProfileGo_ne_oor (order : List ModOrderEntry) :
    ∀ seen : List Bool, (∀ e ∈ order, e.index < seen.length) →
      verifyProfileGo seen order ≠ .error .modIndexOutOfRange := by
  induction order with
  | nil => intro seen _; simp [verifyProfileGo]
  | cons e rest ih =>
    intro seen h
    rw [verifyProfileGo]
    have hlen : e.index < seen.length := h e (List.mem_cons_self ..)
    cases hs : seen[e.index]? with
    | none =>
      rw [List.getElem?_eq_none_iff] at hs
      omega
    | some b =>
      cases b with
      | true => simp
      | false =>
        exact ih _ fun e2 he2 => by
          rw [List.length_set]; exact h e2 (List.mem_cons_of_mem _ he2)

theorem verifyProfileGo_oor (order : List ModOrderEntry) :
    ∀ seen : List Bool, (order.map (·.index)).Nodup →
      (∀ e ∈ order, e.index < seen.length → seen[e.index]? = some false) →
      (∃ e ∈ order, seen.length ≤ e.index) →
      verifyProfileGo seen order = .error .modIndexOutOfRange := by
  induction order with
  | nil => rintro seen _ _ ⟨e, he, _⟩; exact absurd he (by simp)
  | cons e rest ih =>
    rintro seen hnd hfalse ⟨w, hw, hwlen⟩
    rw [verifyProfileGo]
    rw [List.map_cons, List.nodup_cons] at hnd
    by_cases hlen : e.index < seen.length
    · rw [hfalse e (List.mem_cons_self ..) hlen]
      refine ih _ hnd.2 ?_ ?_
      · intro e2 he2 hlen2
        rw [List.length_set] at hlen2
        have hne : e2.index ≠ e.index := by
          intro hc
          exact hnd.1 (List.mem_map.2 ⟨e2, he2, hc⟩)
        rw [List.getElem?_set_ne (fun hc => hne hc.symm)]
        exact hfalse e2 (List.mem_cons_of_mem _ he2) hlen2
      · rcases List.mem_cons.1 hw with h | h
        · subst h; omega
        · exact ⟨w, h, by rw [List.length_set]; exact hwlen⟩
    · have hnone : seen[e.index]? = none := by
        rw [List.getElem?_eq_none (by omega)]
      rw [hnone]

theorem verifyProfiles_ok_of (modsLen : Nat) (l : List (String × Profile))
    (h : ∀ kp ∈ l, ((kp.2.modOrder.map (·.index)).Nodup ∧ ∀ e ∈ kp.2.modOrder, e.index < modsLen)) :
    verifyProfiles modsLen l = .ok () := by
  induction l with
  | nil => rfl
  | cons kp rest ih =>
    obtain ⟨k, p⟩ := kp
    rw [verifyProfiles]
    rw [(verifyProfile_ok_iff p modsLen).2 (h ⟨k, p⟩ (List.mem_cons_self ..))]
    exact ih fun kp2 h2 => h kp2 (List.mem_cons_of_mem _ h2)

theorem verifyProfiles_ok_iff (modsLen : Nat) (l : List (String × Profile)) :
    verifyProfiles modsLen l = .ok () ↔
      ∀ kp ∈ l, ((kp.2.modOrder.map (·.index)).Nodup ∧ ∀ e ∈ kp.2.modOrder, e.index < modsLen) := by
  refine ⟨?_, verifyProfiles_ok_of modsLen l⟩
  induction l with
  | nil => simp
  | cons kp rest ih =>
    intro h kp2 h2
    obtain ⟨k, p⟩ := kp
    rw [verifyProfiles] at h
    cases hv : verifyProfile p modsLen with
    | ok u =>
      cases u
      rw [hv] at h
      rcases List.mem_cons.1 h2 with rfl | hm
      · exact (verifyProfile_ok_iff _ _).1 hv
      · exact ih h kp2 hm
    | error err =>
      rw [hv] at h
      exact absurd h (by simp)

theorem verifyProfiles_dup (modsLen : Nat) (l : List (String × Profile))
    (hrange : ∀ kp ∈ l, ∀ e ∈ kp.2.modOrder, e.index < modsLen)
    (hdup : ∃ kp ∈ l, ¬ (kp.2.modOrder.map (·.index)).Nodup) :
    verifyProfiles modsLen l = .error .duplicateModIndex := by
  induction l with
  | nil => obtain ⟨kp, h, _⟩ := hdup; exact absurd h (by simp)
  | cons kp rest ih =>
    obtain ⟨k, p⟩ := kp
    rw [verifyProfiles]
    by_cases hp : (p.modOrder.map (·.index)).Nodup
    · rw [(verifyProfile_ok_iff p modsLen).2 ⟨hp, hrange ⟨k, p⟩ (List.mem_cons_self ..)⟩]
      refine ih (fun kp2 h2 => hrange kp2 (List.mem_cons_of_mem _ h2)) ?_
      obtain ⟨w, hw, hwd⟩ := hdup
      rcases List.mem_cons.1 hw with rfl | hm
      · exact absurd hp hwd
      · exact ⟨w, hm, hwd⟩
    · have hne : verifyProfile p modsLen ≠ .ok () := fun hc =>
        hp ((verifyProfile_ok_iff _ _).1 hc).1
      have hno : verifyProfile p modsLen ≠ .error .modIndexOutOfRange := by
        rw [verifyProfile]
        refine verifyProfileGo_ne_oor _ _ fun e he => ?_
        rw [List.length_replicate]
        exact hrange ⟨k, p⟩ (List.mem_cons_self ..) e he
      cases hv : verifyProfile p modsLen with
      | ok u => cases u; exact absurd hv hne
      | error err =>
        cases err
        · exact rfl
        · exact absurd hv hno

theorem verifyProfiles_oor (modsLen : Nat) (l : List (String × Profile))
    (hnd : ∀ kp ∈ l, (kp.2.modOrder.map (·.index)).Nodup)
    (hoob : ∃ kp ∈ l, ∃ e ∈ kp.2.modOrder, modsLen ≤ e.index) :
    verifyProfiles modsLen l = .error .modIndexOutOfRange := by
  induction l with
  | nil => obtain ⟨kp, h, _⟩ := hoob; exact absurd h (by simp)
  | cons kp rest ih =>
    obtain ⟨k, p⟩ := kp
    rw [verifyProfiles]
    by_cases hp : ∀ e ∈ p.modOrder, e.index < modsLen
    · rw [(verifyProfile_ok_iff p modsLen).2 ⟨hnd ⟨k, p⟩ (List.mem_cons_self ..), hp⟩]
      refine ih (fun kp2 h2 => hnd kp2 (List.mem_cons_of_mem _ h2)) ?_
      obtain ⟨w, hw, e, he, hlen⟩ := hoob
      rcases List.mem_cons.1 hw with rfl | hm
      · exact absurd (hp e he) (by omega)
      · exact ⟨w, hm, e, he, hlen⟩
    · push_neg at hp
      obtain ⟨e, he, hlen⟩ := hp
      have hoor : verifyProfile p modsLen = .error .modIndexOutOfRange := by
        rw [verifyProfile]
        refine verifyProfileGo_oor _ _ (hnd ⟨k, p⟩ (List.mem_cons_self ..)) ?_ ?_
        · intro e2 _ h2
          rw [List.getElem?_replicate]
          rw [List.length_replicate] at h2
          simp [h2]
        · exact ⟨e, he, by rw [List.length_replicate]; omega⟩
      rw [hoor]

/-- C5: `verify` succeeds — handing the data through unchanged — exactly
when every profile's mod order has pairwise distinct indices all within
`[0, mods.len())`; when all indices are in range but some profile repeats
one, the failure is `DuplicateModIndex`; when no profile repeats an index
but some index is out of range, the failure is `ModIndexOutOfRange`
(`InstanceData::from_file` surfaces these as `InvalidData`). -/
theorem verify_profile_invariants (u : UnverifiedInstanceData) :
    (u.verify = .ok ⟨u.mods, u.profiles⟩ ↔
      ∀ kp ∈ u.profiles,
        ((kp.2.modOrder.map (·.index)).Nodup ∧ ∀ e ∈ kp.2.modOrder, e.index < u.mods.length)) ∧
    ((∀ kp ∈ u.profiles, ∀ e ∈ kp.2.modOrder, e.index < u.mods.length) →
      (∃ kp ∈ u.profiles, ¬ (kp.2.modOrder.map (·.index)).Nodup) →
      u.verify = .error .duplicateModIndex) ∧
    ((∀ kp ∈ u.profiles, (kp.2.modOrder.map (·.index)).Nodup) →
      (∃ kp ∈ u.profiles, ∃ e ∈ kp.2.modOrder, u.mods.length ≤ e.index) →
      u.verify = .error .modIndexOutOfRange) := by
  refine ⟨?_, ?_, ?_⟩
  · rw [← verifyProfiles_ok_iff u.mods.length u.profiles, UnverifiedInstanceData.verify]
    cases hv : verifyProfiles u.mods.length u.profiles with
    | ok x => cases x; simp
    | error err => simp
  · intro h1 h2
    rw [UnverifiedInstanceData.verify, verifyProfiles_dup u.mods.length u.profiles h1 h2]
  · intro h1 h2
    rw [UnverifiedInstanceData.verify, verifyProfiles_oor u.mods.length u.profiles h1 h2]

theorem roundtrip_mod_order_entry (e : ModOrderEntry) (h : e.index < 2 ^ 32) :
    deserializeModOrderEntry (serializeModOrderEntry e) = .ok e := by
  obtain ⟨idx, en⟩ := e
  have h2 : idx < 4294967296 := by simpa using h
  cases en
  · simp [serializeModOrderEntry, deserializeModOrderEntry, deserializeModOrderEntryMap,
      deserializeU32, h2]
  · simp [serializeModOrderEntry, deserializeModOrderEntry, h2]

theorem roundtrip_mod_declaration (d : ModDeclaration) :
    deserializeModDeclaration (serializeModDeclaration d) = .ok d := by
  obtain ⟨n, k⟩ := d
  cases k <;>
    simp [serializeModDeclaration, deserializeModDeclaration, serializeModEntryKind,
      deserializeModDeclarationMap, deserializeModEntryKind]

theorem roundtrip_list (f : Value → Except DecodeError α) (g : α → Value) (l : List α)
    (h : ∀ x ∈ l, f (g x) = .ok x) :
    deserializeList f (.array (l.map g)) = .ok l := by
  rw [deserializeList]
  induction l with
  | nil => rfl
  | cons x rest ih =>
    rw [List.map_cons, deserializeSeq]
    simp only [h x (List.mem_cons_self ..), ih fun y hy => h y (List.mem_cons_of_mem _ hy)]

theorem roundtrip_profile (p : Profile) (h : ∀ e ∈ p.modOrder, e.index < 2 ^ 32) :
    deserializeProfile (serializeProfile p) = .ok p := by
  obtain ⟨dn, mo⟩ := p
  have hl : deserializeList deserializeModOrderEntry
      (.array (mo.map serializeModOrderEntry)) = .ok mo :=
    roundtrip_list _ _ mo fun e he => roundtrip_mod_order_entry e (h e he)
  simp [serializeProfile, deserializeProfile, deserializeProfileMap, hl]

theorem btreeInsert_append (k : String) (v : Profile) (l : List (String × Profile))
    (h : ∀ x ∈ l, x.1 < k) : btreeInsert k v l = l ++ [(k, v)] := by
  induction l with
  | nil => rfl
  | cons kv rest ih =>
    obtain ⟨k2, v2⟩ := kv
    have h1 : k2 < k := h (k2, v2) (List.mem_cons_self ..)
    have h2 : ¬ (k < k2) := lt_asymm h1
    have h3 : ¬ (k = k2) := (ne_of_gt h1)
    rw [btreeInsert, if_neg h2, if_neg h3, ih fun x hx => h x (List.mem_cons_of_mem _ hx)]
    rfl

theorem roundtrip_profiles_go (l : List (String × Profile)) :
    ∀ acc : List (String × Profile), (∀ a ∈ acc, ∀ b ∈ l, a.1 < b.1) →
      l.Pairwise (fun a b => a.1 < b.1) →
      (∀ kp ∈ l, ∀ e ∈ kp.2.modOrder, e.index < 2 ^ 32) →
      deserializeProfilesGo (l.map fun kp => (.text kp.1, serializeProfile kp.2)) acc =
        .ok (acc ++ l) := by
  induction l with
  | nil => intro acc _ _ _; simp [deserializeProfilesGo]
  | cons kp rest ih =>
    intro acc hacc hpair hu32
    obtain ⟨k, p⟩ := kp
    rw [List.map_cons]
    have hp : deserializeProfile (serializeProfile p) = .ok p :=
      roundtrip_profile p fun e he => hu32 (k, p) (List.mem_cons_self ..) e he
    rw [deserializeProfilesGo]
    simp only [hp]
    rw [btreeInsert_append k p acc fun a ha => hacc a ha (k, p) (List.mem_cons_self ..)]
    rw [List.pairwise_cons] at hpair
    rw [ih (acc ++ [(k, p)]) ?_ hpair.2 fun kp2 h2 => hu32 kp2 (List.mem_cons_of_mem _ h2)]
    · simp
    · intro a ha b hb
      rcases List.mem_append.1 ha with h | h
      · exact hacc a h b (List.mem_cons_of_mem _ hb)
      · rcases List.mem_singleton.1 h with rfl
        exact hpair.1 b hb

theorem roundtrip_unverified (d : InstanceData)
    (hu32 : ∀ kp ∈ d.profiles, ∀ e ∈ kp.2.modOrder, e.index < 2 ^ 32)
    (hsort : d.profiles.Pairwise (fun a b => a.1 < b.1)) :
    deserializeUnverified (serializeInstanceData d) = .ok ⟨d.mods, d.profiles⟩ := by
  have hmods : deserializeList deserializeModDeclaration
      (.array (d.mods.map serializeModDeclaration)) = .ok d.mods :=
    roundtrip_list _ _ d.mods fun x _ => roundtrip_mod_declaration x
  have hprof : deserializeProfilesGo
      (d.profiles.map fun kp => (.text kp.1, serializeProfile kp.2)) [] = .ok d.profiles := by
    rw [roundtrip_profiles_go d.profiles [] (by simp) hsort hu32]
    rfl
  rw [serializeInstanceData, serializeInstanceDataV, deserializeUnverified]
  rw [deserializeUnverifiedMap, deserializeVersion]
  rw [if_pos rfl]
  rw [deserializeUnverifiedMap]
  simp only [hmods]
  rw [deserializeUnverifiedMap]
  simp only [deserializeProfiles, hprof]
  rw [deserializeUnverifiedMap]
  simp

/-- C2: for every instance-data value satisfying the representation
invariants of the Rust types (`u32` indices, strictly ascending `BTreeMap`
keys) and the invariants `verify` checks on load (no duplicate index within
a profile, all indices in range), deserialising the serialised form through
`InstanceData::from_file`'s pipeline — including the asymmetric compact
encodings of `ModOrderEntry` and `ModDeclaration` — yields the value back
unchanged. -/
theorem instance_data_roundtrip (d : InstanceData)
    (hu32 : ∀ kp ∈ d.profiles, ∀ e ∈ kp.2.modOrder, e.index < 2 ^ 32)
    (hsort : d.profiles.Pairwise (fun a b => a.1 < b.1))
    (hvalid : ∀ kp ∈ d.profiles,
      ((kp.2.modOrder.map (·.index)).Nodup ∧ ∀ e ∈ kp.2.modOrder, e.index < d.mods.length)) :
    instanceDataFromValue (serializeInstanceData d) = .ok d := by
  have hv : UnverifiedInstanceData.verify ⟨d.mods, d.profiles⟩ = .ok d := by
    rw [UnverifiedInstanceData.verify, verifyProfiles_ok_of d.mods.length d.profiles hvalid]
  rw [instanceDataFromValue]
  simp only [roundtrip_unverified d hu32 hsort, hv]

/-- C2's theorem at a concrete input: the persistence round-trip scenario of
the spec — mods `[m0, m1, separator, m2]`, profile `default` with order
`[2 enabled, 0 disabled, 1 enabled]` — comes back unchanged. -/
theorem instance_data_roundtrip_witness :
    instanceDataFromValue (serializeInstanceData
      ⟨[⟨"m0", .mod⟩, ⟨"m1", .mod⟩, ⟨"sep", .separator⟩, ⟨"m2", .mod⟩],
       [("default", ⟨"Default", [⟨2, true⟩, ⟨0, false⟩, ⟨1, true⟩]⟩)]⟩) =
      .ok ⟨[⟨"m0", .mod⟩, ⟨"m1", .mod⟩, ⟨"sep", .separator⟩, ⟨"m2", .mod⟩],
       [("default", ⟨"Default", [⟨2, true⟩, ⟨0, false⟩, ⟨1, true⟩]⟩)]⟩ :=
  instance_data_roundtrip _ (by decide) (by decide) (by decide)

theorem parseDigit_digitChar10 (d : Nat) (h : d < 10) : parseDigit (digitChar10 d) = some d := by
  interval_cases d <;> decide

theorem parseU32Go_append (xs ys : List Char) :
    ∀ acc, parseU32Go (xs ++ ys) acc =
      match parseU32Go xs acc with
      | some a => parseU32Go ys a
      | none => none := by
  induction xs with
  | nil => intro acc; rfl
  | cons c rest ih =>
    intro acc
    rw [List.cons_append, parseU32Go, parseU32Go]
    cases parseDigit c with
    | none => rfl
    | some d =>
      by_cases hb : acc * 10 + d < 2 ^ 32
      · simp only [if_pos hb]
        exact ih (acc * 10 + d)
      · simp only [if_neg hb]

theorem natChars_ne_nil (fuel n : Nat) : natChars (fuel + 1) n ≠ [] := by
  rw [natChars]
  split
  · simp
  · simp

theorem parseU32Go_natChars :
    ∀ fuel n acc, n < 10 ^ fuel →
      acc * 10 ^ (natChars fuel n).length + n < 2 ^ 32 →
      parseU32Go (natChars fuel n) acc = some (acc * 10 ^ (natChars fuel n).length + n) := by
  intro fuel
  induction fuel with
  | zero =>
    intro n acc hn hb
    interval_cases n
    simp [natChars, parseU32Go]
  | succ fuel ih =>
    intro n acc hn hb
    by_cases h10 : n < 10
    · rw [natChars, if_pos h10] at hb ⊢
      have hd := parseDigit_digitChar10 n h10
      have hb2 : acc * 10 + n < 2 ^ 32 := by simpa using hb
      rw [parseU32Go]
      simp only [hd, if_pos hb2, parseU32Go]
      simp
    · rw [natChars, if_neg h10] at hb ⊢
      have hlen : (natChars fuel (n / 10) ++ [digitChar10 (n % 10)]).length =
          (natChars fuel (n / 10)).length + 1 := by simp
      rw [hlen] at hb
      have hdiv : n / 10 < 10 ^ fuel := by
        rw [pow_succ] at hn
        exact Nat.div_lt_of_lt_mul (by omega)
      set L := (natChars fuel (n / 10)).length with hL
      have hsplit : acc * 10 ^ (L + 1) + n =
          (acc * 10 ^ L + n / 10) * 10 + n % 10 := by
        rw [pow_succ, ← mul_assoc]
        omega
      rw [hsplit] at hb
      have hb2 : acc * 10 ^ L + n / 10 < 2 ^ 32 := by omega
      have hmain := ih (n / 10) acc hdiv hb2
      rw [parseU32Go_append]
      simp only [hmain]
      have hd := parseDigit_digitChar10 (n % 10) (Nat.mod_lt n (by omega))
      rw [parseU32Go]
      simp only [hd]
      have hb3 : (acc * 10 ^ L + n / 10) * 10 + n % 10 < 2 ^ 32 := by omega
      simp only [if_pos hb3, parseU32Go]
      rw [hlen, hsplit]

theorem parseU32_natRepr (v : Nat) (h : v < 2 ^ 32) : parseU32 (natRepr v) = some v := by
  have hlt : v < 10 ^ (v + 1) :=
    lt_of_lt_of_le (Nat.lt_pow_self (by norm_num) v) (Nat.pow_le_pow_right (by norm_num) (by omega))
  have hbound : 0 * 10 ^ (natChars (v + 1) v).length + v < 2 ^ 32 := by simpa using h
  have hmain := parseU32Go_natChars (v + 1) v 0 hlt hbound
  rw [natRepr, parseU32]
  have hne : (natChars (v + 1) v).isEmpty = false := by
    rw [List.isEmpty_eq_false]
    exact natChars_ne_nil v v
  show (if (natChars (v + 1) v).isEmpty = true then none
    else parseU32Go (natChars (v + 1) v) 0) = some v
  rw [hne]
  simp only [Bool.false_eq_true, if_false]
  rw [hmain]
  simp

theorem strStartsWith_append (p t : String) : strStartsWith p (p ++ t) = true := by
  rw [strStartsWith, String.data_append, List.isPrefixOf_iff_prefix]
  exact List.prefix_append p.data t.data

theorem strDropChars_append (p t : String) : strDropChars (p ++ t) p.length = t := by
  rw [strDropChars, String.data_append]
  show String.mk ((p.data ++ t.data).drop p.data.length) = t
  rw [List.drop_left]

/-- C6: loading a serialised instance whose version field holds any integer
`v ≠ 0` (within `u32` range, as the field is a `u32`) fails with
`UnsupportedVersion v` — a failure kind distinct by constructor from the
generic `Deserialize` decode failure; in particular a tampered `version = 1`
yields `UnsupportedVersion(1)`. -/
theorem unsupported_version_detected (d : InstanceData) (v : Nat)
    (h1 : v ≠ 0) (h2 : v < 2 ^ 32) :
    instanceDataFromValue (serializeInstanceDataV v d) = .error (.unsupportedVersion v) := by
  have hver : deserializeVersion (.uint v) =
      .error (.custom (versionMismatchPrefix ++ natRepr v)) := by
    rw [deserializeVersion, if_neg h1]
  have hun : deserializeUnverified (serializeInstanceDataV v d) =
      .error (.custom (versionMismatchPrefix ++ natRepr v)) := by
    rw [serializeInstanceDataV, deserializeUnverified, deserializeUnverifiedMap]
    simp only [hver]
    simp
  rw [instanceDataFromValue]
  simp only [hun, strStartsWith_append, if_pos, strDropChars_append,
    parseU32_natRepr v h2]

/-- C6's theorem at a concrete input: tampering the version of a serialised
one-mod instance to `1` yields `UnsupportedVersion(1)`. -/
theorem unsupported_version_detected_witness :
    instanceDataFromValue (serializeInstanceDataV 1
      ⟨[⟨"m0", .mod⟩], [("default", ⟨"Default", [⟨0, true⟩]⟩)]⟩) =
      .error (.unsupportedVersion 1) :=
  unsupported_version_detected _ 1 (by decide) (by decide)

/-- C10's theorem at a concrete input: renaming the only mod of an
unchanged one-mod instance succeeds, leaves `changed` false, and the
following `save()` enqueues nothing. -/
theorem rename_mod_preserves_changed_witness :
    renameMod ⟨⟨[⟨"A", .mod⟩], [("default", ⟨"Default", [⟨0, false⟩]⟩)]⟩, "default", false⟩
        0 "B" true true =
      .ok ⟨⟨[⟨"B", .mod⟩], [("default", ⟨"Default", [⟨0, false⟩]⟩)]⟩, "default", false⟩ ∧
    (save ⟨⟨[⟨"B", .mod⟩], [("default", ⟨"Default", [⟨0, false⟩]⟩)]⟩, "default", false⟩).2 =
      none :=
  ⟨rfl, (rename_mod_preserves_changed
    ⟨⟨[⟨"A", .mod⟩], [("default", ⟨"Default", [⟨0, false⟩]⟩)]⟩, "default", false⟩
    0 "B" true true _ rfl rfl).2.1⟩

theorem findNamed_name (cs : FileChildren) (n : String) :
    ∀ c, findNamed cs n = some c → c.name = n := by
  induction cs with
  | nil => intro c h; exact Option.noConfusion h
  | cons c0 rest ih =>
    intro c h
    rw [findNamed] at h
    split at h
    · cases Option.some.inj h
      assumption
    · exact ih c h

theorem findNamed_appendChild (cs : FileChildren) (t : FileTree) (n : String) :
    findNamed (appendChild cs t) n =
      match findNamed cs n with
      | some c => some c
      | none => if t.name = n then some t else none := by
  induction cs with
  | nil => rfl
  | cons c0 rest ih =>
    rw [appendChild, findNamed, findNamed]
    split
    · rfl
    · exact ih

theorem findNamed_replaceNamed (cs : FileChildren) (n : String) (t : FileTree)
    (ht : t.name = n) :
    ∀ n2, findNamed (replaceNamed cs n t) n2 =
      if n2 = n ∧ (findNamed cs n).isSome then some t else findNamed cs n2 := by
  induction cs with
  | nil =>
    intro n2
    simp [replaceNamed, findNamed]
  | cons c0 rest ih =>
    intro n2
    by_cases h0 : c0.name = n
    · rw [replaceNamed, if_pos h0]
      by_cases h2 : n2 = n
      · subst h2
        simp [findNamed, ht, h0]
      · have ht2 : ¬ t.name = n2 := by rw [ht]; exact fun hc => h2 hc.symm
        have hc2 : ¬ c0.name = n2 := by rw [h0]; exact fun hc => h2 hc.symm
        simp [findNamed, ht2, hc2, h2]
    · rw [replaceNamed, if_neg h0]
      by_cases h2 : c0.name = n2
      · have hn2 : ¬ (n2 = n) := fun hc => h0 (hc ▸ h2)
        simp [findNamed, h2, hn2]
      · simp [findNamed, h0, h2, ih n2]

theorem replaceNamed_isSome (cs : FileChildren) (n : String) (t : FileTree)
    (ht : t.name = n) (n2 : String) :
    (findNamed (replaceNamed cs n t) n2).isSome = (findNamed cs n2).isSome := by
  rw [findNamed_replaceNamed cs n t ht n2]
  by_cases h : n2 = n ∧ (findNamed cs n).isSome
  · rw [if_pos h]
    rcases h with ⟨rfl, h2⟩
    simp [h2]
  · rw [if_neg h]

theorem mergeEntry_eq (m : Nat) (n : String) (isDir : Bool) (path : List String) :
    ∀ cs, mergeEntry m n isDir cs path =
      match findNamed cs n with
      | none => .ok (appendChild cs (if isDir then createDirNode n else createFileNode m n))
      | some c =>
        match addToExistingNode c m isDir path with
        | .ok c2 => .ok (replaceNamed cs n c2)
        | .error e => .error e := by
  intro cs
  induction cs with
  | nil => rfl
  | cons c0 rest ih =>
    by_cases h0 : c0.name = n
    · rw [mergeEntry, if_pos h0]
      rw [findNamed, if_pos h0]
      cases ha : addToExistingNode c0 m isDir path with
      | ok c2 => simp [ha, replaceNamed, h0]
      | error e => simp [ha]
    · rw [mergeEntry, if_neg h0, ih, findNamed, if_neg h0]
      cases hf : findNamed rest n with
      | none => simp [hf, appendChild]
      | some c =>
        cases ha : addToExistingNode c m isDir path with
        | ok c2 => simp [hf, ha, replaceNamed, h0]
        | error e => simp [hf, ha]

theorem addToExistingNode_ok (nm : String) (k : TreeNodeKind) (cs : FileChildren)
    (m : Nat) (isDir : Bool) (path : List String) :
    addToExistingNode (.node nm k cs) m isDir path =
      match k, isDir with
      | .dir, true => .ok (.node nm .dir cs)
      | .file ps, false => .ok (.node nm (.file (ps ++ [m])) cs)
      | .dir, false => .error (.typeMismatch path nm .dir)
      | .file ps, true => .error (.typeMismatch path nm (.file ps)) := rfl

theorem addToExistingNode_name (c : FileTree) (m : Nat) (isDir : Bool) (path : List String) :
    ∀ c2, addToExistingNode c m isDir path = .ok c2 →
      c2.name = c.name ∧ c2.children = c.children := by
  intro c2 h
  obtain ⟨nm, k, cs⟩ := c
  rw [addToExistingNode_ok] at h
  cases k with
  | dir =>
    cases isDir with
    | true => cases Except.ok.inj h; exact ⟨rfl, rfl⟩
    | false => exact absurd h (by simp)
  | file ps =>
    cases isDir with
    | false => cases Except.ok.inj h; exact ⟨rfl, rfl⟩
    | true => exact absurd h (by simp)

theorem newNode_name (m : Nat) (n : String) (isDir : Bool) :
    (if isDir then createDirNode n else createFileNode m n).name = n := by
  cases isDir <;> rfl

theorem mergeEntry_ok_desc (m : Nat) (n : String) (isDir : Bool) (cs : FileChildren)
    (path : List String) (cs2 : FileChildren)
    (h : mergeEntry m n isDir cs path = .ok cs2) :
    (∀ n2, n2 ≠ n → findNamed cs2 n2 = findNamed cs n2) ∧
    (match findNamed cs n with
      | none => findNamed cs2 n = some (if isDir then createDirNode n else createFileNode m n)
      | some c => ∃ c2, addToExistingNode c m isDir path = .ok c2 ∧ findNamed cs2 n = some c2) := by
  rw [mergeEntry_eq] at h
  cases hf : findNamed cs n with
  | none =>
    rw [hf] at h
    replace h : (Except.ok (appendChild cs
        (if isDir then createDirNode n else createFileNode m n)) :
        Except UnresolvedErr FileChildren) = .ok cs2 := h
    cases Except.ok.inj h
    constructor
    · intro n2 hne
      rw [findNamed_appendChild]
      cases hf2 : findNamed cs n2 with
      | some c => rfl
      | none =>
        rw [newNode_name, if_neg fun hc : n = n2 => hne hc.symm]
    · simp [findNamed_appendChild, hf, newNode_name]
  | some c =>
    rw [hf] at h
    replace h : (match addToExistingNode c m isDir path with
      | Except.ok c2 => Except.ok (replaceNamed cs n c2)
      | Except.error e => Except.error e) = Except.ok cs2 := h
    cases ha : addToExistingNode c m isDir path with
    | error e => rw [ha] at h; exact absurd h (by simp)
    | ok c2 =>
      rw [ha] at h
      replace h : Except.ok (replaceNamed cs n c2) = Except.ok cs2 := h
      cases Except.ok.inj h
      have hname : c2.name = n := by
        rw [(addToExistingNode_name c m isDir path c2 ha).1]
        exact findNamed_name cs n c hf
      constructor
      · intro n2 hne
        rw [findNamed_replaceNamed cs n c2 hname n2, if_neg fun hc => hne hc.1]
      · refine ⟨c2, ha, ?_⟩
        rw [findNamed_replaceNamed cs n c2 hname n, if_pos ⟨rfl, by rw [hf]; rfl⟩]

theorem lookupEntryNamed_none (rest : FsEntries) (n : String)
    (h : hasEntryName rest (some n) = false) : lookupEntryNamed rest n = none := by
  induction rest with
  | nil => rfl
  | cons p tail ih =>
    obtain ⟨nm, fsn⟩ := p
    rw [hasEntryName, Bool.or_eq_false_iff] at h
    rw [lookupEntryNamed, if_neg (by simpa using h.1)]
    exact ih h.2

theorem mergeLevel_desc (m : Nat) :
    ∀ (es : FsEntries) (cs cs2 : FileChildren) (path : List String),
    wfE es = true → mergeLevel m es cs path = .ok cs2 →
    ∀ n : String,
      match lookupEntryNamed es n with
      | none => findNamed cs2 n = findNamed cs n
      | some .file =>
        (∃ ps csc, findNamed cs n = some (.node n (.file ps) csc) ∧
            findNamed cs2 n = some (.node n (.file (ps ++ [m])) csc)) ∨
        (findNamed cs n = none ∧ findNamed cs2 n = some (.node n (.file [m]) []))
      | some (.dir _) =>
        (∃ csc, findNamed cs n = some (.node n .dir csc) ∧
            findNamed cs2 n = some (.node n .dir csc)) ∨
        (findNamed cs n = none ∧ findNamed cs2 n = some (.node n .dir [])) := by
  intro es
  induction es with
  | nil =>
    intro cs cs2 path _ h n
    rw [mergeLevel] at h
    cases Except.ok.inj h
    rw [lookupEntryNamed]
  | cons p rest ih =>
    intro cs cs2 path hwf h n
    obtain ⟨name, fsn⟩ := p
    cases name with
    | none => rw [mergeLevel] at h; exact absurd h (by simp)
    | some n0 =>
      rw [mergeLevel] at h
      cases hme : mergeEntry m n0 fsn.isDir cs path with
      | error e => rw [hme] at h; exact absurd h (by simp)
      | ok cs1 =>
        rw [hme] at h
        rw [wfE] at hwf
        simp only [Bool.and_eq_true] at hwf
        obtain ⟨⟨h1, _⟩, hwfrest⟩ := hwf
        have hwf1 : hasEntryName rest (some n0) = false := by simpa using h1
        have hdesc := mergeEntry_ok_desc m n0 fsn.isDir cs path cs1 hme
        have hihn := ih cs1 cs2 path hwfrest h
        by_cases hn : n = n0
        · subst hn
          rw [lookupEntryNamed, if_pos rfl]
          have hrest0 : lookupEntryNamed rest n = none := lookupEntryNamed_none rest n hwf1
          have heq : findNamed cs2 n = findNamed cs1 n := by
            have := hihn n
            rw [hrest0] at this
            exact this
          rw [heq]
          cases hf : findNamed cs n with
          | none =>
            have h2 := hdesc.2
            rw [hf] at h2
            replace h2 : findNamed cs1 n =
                some (if FsNode.isDir fsn then createDirNode n else createFileNode m n) := h2
            cases fsn with
            | file =>
              right
              exact ⟨rfl, by rw [h2]; rfl⟩
            | dir subEs =>
              right
              exact ⟨rfl, by rw [h2]; rfl⟩
          | some c =>
            have h2 := hdesc.2
            rw [hf] at h2
            replace h2 : ∃ c2, addToExistingNode c m (FsNode.isDir fsn) path = .ok c2 ∧
                findNamed cs1 n = some c2 := h2
            obtain ⟨c2, ha, hfind⟩ := h2
            obtain ⟨nm, k, csc⟩ := c
            have hnm : nm = n := findNamed_name cs n _ hf
            subst hnm
            rw [addToExistingNode_ok] at ha
            cases fsn with
            | file =>
              cases k with
              | dir => exact absurd ha (by simp [FsNode.isDir])
              | file ps =>
                left
                replace ha : (Except.ok (FileTree.node nm (.file (ps ++ [m])) csc) :
                    Except UnresolvedErr FileTree) = .ok c2 := ha
                cases Except.ok.inj ha
                exact ⟨ps, csc, rfl, hfind⟩
            | dir subEs =>
              cases k with
              | file ps => exact absurd ha (by simp [FsNode.isDir])
              | dir =>
                left
                replace ha : (Except.ok (FileTree.node nm .dir csc) :
                    Except UnresolvedErr FileTree) = .ok c2 := ha
                cases Except.ok.inj ha
                exact ⟨csc, rfl, hfind⟩
        · rw [lookupEntryNamed, if_neg (by simpa using fun hc : n0 = n => hn hc.symm)]
          have heq1 : findNamed cs1 n = findNamed cs n := hdesc.1 n hn
          have := hihn n
          rw [heq1] at this
          exact this

theorem walkNode_shape (fuel : Nat) (m : Nat) (es : FsEntries) (t : FileTree)
    (path : List String) (t2 : FileTree) (h : walkNode fuel m es t path = .ok t2) :
    t2.name = t.name ∧ t2.kind = t.kind := by
  cases fuel with
  | zero => exact absurd h (by rw [walkNode]; simp)
  | succ fuel =>
    obtain ⟨nm, k, cs⟩ := t
    rw [walkNode] at h
    cases hm : mergeLevel m es cs path with
    | error e => rw [hm] at h; exact absurd h (by simp)
    | ok cs2 =>
      rw [hm] at h
      replace h : (match walkSubdirs fuel m es cs2 path with
        | Except.error e => Except.error e
        | Except.ok cs3 => Except.ok (FileTree.node nm k cs3)) = .ok t2 := h
      cases hs : walkSubdirs fuel m es cs2 path with
      | error e => rw [hs] at h; exact absurd h (by simp)
      | ok cs3 =>
        rw [hs] at h
        replace h : (Except.ok (FileTree.node nm k cs3) :
            Except UnresolvedErr FileTree) = .ok t2 := h
        cases Except.ok.inj h
        exact ⟨rfl, rfl⟩

theorem walkNode_ok_children (fuel : Nat) (m : Nat) (es : FsEntries) (nm : String)
    (k : TreeNodeKind) (cs : FileChildren) (path : List String) (t2 : FileTree)
    (h : walkNode (fuel + 1) m es (.node nm k cs) path = .ok t2) :
    ∃ cs2 cs3, mergeLevel m es cs path = .ok cs2 ∧
      walkSubdirs fuel m es cs2 path = .ok cs3 ∧ t2 = .node nm k cs3 := by
  rw [walkNode] at h
  cases hm : mergeLevel m es cs path with
  | error e => rw [hm] at h; exact absurd h (by simp)
  | ok cs2 =>
    rw [hm] at h
    replace h : (match walkSubdirs fuel m es cs2 path with
      | Except.error e => Except.error e
      | Except.ok cs3 => Except.ok (FileTree.node nm k cs3)) = .ok t2 := h
    cases hs : walkSubdirs fuel m es cs2 path with
    | error e => rw [hs] at h; exact absurd h (by simp)
    | ok cs3 =>
      rw [hs] at h
      replace h : (Except.ok (FileTree.node nm k cs3) :
          Except UnresolvedErr FileTree) = .ok t2 := h
      cases Except.ok.inj h
      exact ⟨cs2, cs3, rfl, hs, rfl⟩

theorem walkChild_cases : ∀ (fuel : Nat) (m : Nat) (subEs : FsEntries) (cs : FileChildren)
    (n : String) (path : List String) (cs2 : FileChildren),
    walkChild fuel m subEs cs n path = .ok cs2 →
    (findNamed cs n = none ∧ cs2 = cs) ∨
    (∃ c c2 fuel2, fuel2 < fuel ∧ findNamed cs n = some c ∧
      walkNode fuel2 m subEs c (path ++ [n]) = .ok c2 ∧ cs2 = replaceNamed cs n c2) := by
  intro fuel
  induction fuel with
  | zero => intro m subEs cs n path cs2 h; exact absurd h (by rw [walkChild]; simp)
  | succ fuel ih =>
    intro m subEs cs n path cs2 h
    cases cs with
    | nil =>
      rw [walkChild] at h
      replace h : (Except.ok ([] : FileChildren) : Except UnresolvedErr FileChildren) =
        .ok cs2 := h
      cases Except.ok.inj h
      exact Or.inl ⟨rfl, rfl⟩
    | cons c rest =>
      rw [walkChild] at h
      by_cases h0 : c.name = n
      · rw [if_pos h0] at h
        cases hw : walkNode fuel m subEs c (path ++ [n]) with
        | error e => rw [hw] at h; exact absurd h (by simp)
        | ok c2 =>
          rw [hw] at h
          replace h : (Except.ok (c2 :: rest) : Except UnresolvedErr FileChildren) =
            .ok cs2 := h
          cases Except.ok.inj h
          refine Or.inr ⟨c, c2, fuel, Nat.lt_succ_self fuel, ?_, hw, ?_⟩
          · rw [findNamed, if_pos h0]
          · rw [replaceNamed, if_pos h0]
      · rw [if_neg h0] at h
        cases hw : walkChild fuel m subEs rest n path with
        | error e => rw [hw] at h; exact absurd h (by simp)
        | ok rest2 =>
          rw [hw] at h
          replace h : (Except.ok (c :: rest2) : Except UnresolvedErr FileChildren) =
            .ok cs2 := h
          cases Except.ok.inj h
          rcases ih m subEs rest n path rest2 hw with ⟨hn, rfl⟩ | ⟨c0, c2, fuel2, hlt, hf, hwn, rfl⟩
          · exact Or.inl ⟨by rw [findNamed, if_neg h0]; exact hn, rfl⟩
          · refine Or.inr ⟨c0, c2, fuel2, Nat.lt_succ_of_lt hlt, ?_, hwn, ?_⟩
            · rw [findNamed, if_neg h0]; exact hf
            · rw [replaceNamed, if_neg h0]

theorem wfE_lookup_dir : ∀ (es : FsEntries) (n : String) (subEs : FsEntries),
    wfE es = true → lookupEntryNamed es n = some (.dir subEs) → wfE subEs = true := by
  intro es
  induction es with
  | nil => intro n subEs _ h; exact Option.noConfusion h
  | cons p rest ih =>
    intro n subEs hwf h
    obtain ⟨name, fsn⟩ := p
    rw [wfE] at hwf
    simp only [Bool.and_eq_true] at hwf
    obtain ⟨⟨_, hwn⟩, hwr⟩ := hwf
    rw [lookupEntryNamed] at h
    split at h
    · cases Option.some.inj h
      rw [wfN] at hwn
      exact hwn
    · exact ih n subEs hwr h

theorem providersAtPath_nil_children : ∀ q : List String, providersAtPath [] q = [] := by
  intro q
  cases q <;> rfl

/-! The heart of the provider-order argument: one strong induction on the
fuel, simultaneously describing what `walkNode` and `walkSubdirs` do to the
providers recorded at every path, on directory listings with distinct
sibling names. -/

theorem walk_spec : ∀ (fuel : Nat),
    (∀ (m : Nat) (es : FsEntries) (t : FileTree) (path : List String) (t2 : FileTree),
      wfE es = true → walkNode fuel m es t path = .ok t2 →
      t2.name = t.name ∧ t2.kind = t.kind ∧
      ∀ q : List String, q ≠ [] →
        providersAtPath t2.children q =
          providersAtPath t.children q ++ (if hasFileAt es q then [m] else [])) ∧
    (∀ (m : Nat) (es : FsEntries) (cs : FileChildren) (path : List String)
        (cs3 : FileChildren),
      wfE es = true → walkSubdirs fuel m es cs path = .ok cs3 →
      ∀ n : String,
        match lookupEntryNamed es n with
        | some (.dir subEs) =>
          (findNamed cs n = none ∧ findNamed cs3 n = none) ∨
          (∃ nm kk csc csc3, findNamed cs n = some (.node nm kk csc) ∧
            findNamed cs3 n = some (.node nm kk csc3) ∧
            ∀ q : List String, q ≠ [] →
              providersAtPath csc3 q =
                providersAtPath csc q ++ (if hasFileAt subEs q then [m] else []))
        | _ => findNamed cs3 n = findNamed cs n) := by
  intro fuel
  induction fuel using Nat.strong_induction_on with
  | _ fuel IH =>
  cases fuel with
  | zero =>
    constructor
    · intro m es t path t2 _ h
      exact absurd h (by rw [walkNode]; simp)
    · intro m es cs path cs3 _ h
      exact absurd h (by rw [walkSubdirs]; simp)
  | succ f =>
    constructor
    · -- walkNode
      intro m es t path t2 hwf h
      obtain ⟨nm, k, cs⟩ := t
      obtain ⟨cs2, cs3, hm, hs, rfl⟩ := walkNode_ok_children f m es nm k cs path t2 h
      refine ⟨rfl, rfl, ?_⟩
      intro q hq
      cases q with
      | nil => exact absurd rfl hq
      | cons n qrest =>
      have ML := mergeLevel_desc m es cs cs2 path hwf hm n
      have WS := (IH f (Nat.lt_succ_self f)).2 m es cs2 path cs3 hwf hs n
      show providersAtPath cs3 (n :: qrest) =
        providersAtPath cs (n :: qrest) ++
          (if hasFileAt es (n :: qrest) then [m] else [])
      cases hlk : lookupEntryNamed es n with
      | none =>
        rw [hlk] at ML WS
        replace ML : findNamed cs2 n = findNamed cs n := ML
        replace WS : findNamed cs3 n = findNamed cs2 n := WS
        rw [providersAtPath, providersAtPath, WS.trans ML, hasFileAt, hlk]
        simp
      | some fsn =>
        cases fsn with
        | file =>
          rw [hlk] at ML WS
          replace WS : findNamed cs3 n = findNamed cs2 n := WS
          replace ML : (∃ ps csc, findNamed cs n = some (.node n (.file ps) csc) ∧
              findNamed cs2 n = some (.node n (.file (ps ++ [m])) csc)) ∨
            (findNamed cs n = none ∧ findNamed cs2 n = some (.node n (.file [m]) [])) := ML
          rcases ML with ⟨ps, csc, hfcs, hfcs2⟩ | ⟨hfcs, hfcs2⟩
          · rw [providersAtPath, providersAtPath, WS.trans hfcs2, hfcs, hasFileAt, hlk]
            cases qrest <;> simp
          · rw [providersAtPath, providersAtPath, WS.trans hfcs2, hfcs, hasFileAt, hlk]
            cases qrest with
            | nil => simp
            | cons q0 qr => simp [providersAtPath_nil_children]
        | dir subEs =>
          have hwfsub := wfE_lookup_dir es n subEs hwf hlk
          rw [hlk] at ML WS
          replace ML : (∃ csc, findNamed cs n = some (.node n .dir csc) ∧
              findNamed cs2 n = some (.node n .dir csc)) ∨
            (findNamed cs n = none ∧ findNamed cs2 n = some (.node n .dir [])) := ML
          replace WS : (findNamed cs2 n = none ∧ findNamed cs3 n = none) ∨
            (∃ nm2 kk2 csc2 csc3x, findNamed cs2 n = some (.node nm2 kk2 csc2) ∧
              findNamed cs3 n = some (.node nm2 kk2 csc3x) ∧
              ∀ q : List String, q ≠ [] →
                providersAtPath csc3x q =
                  providersAtPath csc2 q ++ (if hasFileAt subEs q then [m] else [])) := WS
          rcases WS with ⟨h2none, _⟩ | ⟨nm2, kk2, csc2, csc3x, h2some, h3some, hform⟩
          · rcases ML with ⟨csc, _, hfcs2⟩ | ⟨_, hfcs2⟩ <;>
              (rw [h2none] at hfcs2; exact Option.noConfusion hfcs2)
          · rcases ML with ⟨csc, hfcs, hfcs2⟩ | ⟨hfcs, hfcs2⟩
            · rw [hfcs2] at h2some
              injection Option.some.inj h2some with e1 e2 e3
              subst e1; subst e2; subst e3
              rw [providersAtPath, providersAtPath, h3some, hfcs, hasFileAt, hlk]
              cases qrest with
              | nil => simp
              | cons q0 qr =>
                show providersAtPath csc3x (q0 :: qr) =
                  providersAtPath csc (q0 :: qr) ++
                    (if hasFileAt subEs (q0 :: qr) then [m] else [])
                exact hform (q0 :: qr) (by simp)
            · rw [hfcs2] at h2some
              injection Option.some.inj h2some with e1 e2 e3
              subst e1; subst e2; subst e3
              rw [providersAtPath, providersAtPath, h3some, hfcs, hasFileAt, hlk]
              cases qrest with
              | nil => simp
              | cons q0 qr =>
                have hf2 := hform (q0 :: qr) (by simp)
                rw [providersAtPath_nil_children, List.nil_append] at hf2
                show providersAtPath csc3x (q0 :: qr) =
                  [] ++ (if hasFileAt subEs (q0 :: qr) then [m] else [])
                rw [List.nil_append]
                exact hf2
    · -- walkSubdirs
      intro m es cs path cs3 hwf h
      cases es with
      | nil =>
        rw [walkSubdirs] at h
        replace h : (Except.ok cs : Except UnresolvedErr FileChildren) = .ok cs3 := h
        cases Except.ok.inj h
        intro n
        rw [lookupEntryNamed]
      | cons p rest =>
        obtain ⟨name, fsn⟩ := p
        rw [walkSubdirs] at h
        cases hs : walkSubdirs f m rest cs path with
        | error e => rw [hs] at h; exact absurd h (by simp)
        | ok cs2 =>
        rw [hs] at h
        rw [wfE] at hwf
        simp only [Bool.and_eq_true] at hwf
        obtain ⟨⟨h1, hwn⟩, hwr⟩ := hwf
        have IHn := (IH f (Nat.lt_succ_self f)).2 m rest cs path cs2 hwr hs
        cases name with
        | none =>
          cases fsn with
          | file =>
            replace h : (Except.ok cs2 : Except UnresolvedErr FileChildren) = .ok cs3 := h
            cases Except.ok.inj h
            intro n
            exact IHn n
          | dir subEs =>
            replace h : (Except.ok cs2 : Except UnresolvedErr FileChildren) = .ok cs3 := h
            cases Except.ok.inj h
            intro n
            exact IHn n
        | some n0 =>
          have hwf1 : hasEntryName rest (some n0) = false := by simpa using h1
          have hrest0 : lookupEntryNamed rest n0 = none := lookupEntryNamed_none rest n0 hwf1
          cases fsn with
          | file =>
            replace h : (Except.ok cs2 : Except UnresolvedErr FileChildren) = .ok cs3 := h
            cases Except.ok.inj h
            intro n
            by_cases hn : n0 = n
            · subst hn
              rw [lookupEntryNamed, if_pos rfl]
              have IHn0 := IHn n0
              rw [hrest0] at IHn0
              exact IHn0
            · rw [lookupEntryNamed, if_neg (by simpa using hn)]
              exact IHn n
          | dir subEs =>
            replace h : walkChild f m subEs cs2 n0 path = .ok cs3 := h
            rw [wfN] at hwn
            intro n
            rcases walkChild_cases f m subEs cs2 n0 path cs3 h with
              ⟨hfnone, heq3⟩ | ⟨c, c2, fuel2, hlt, hfc, hwnode, rfl⟩
            · -- the target node does not exist in the tree: nothing changes
              replace heq3 : cs2 = cs3 := heq3.symm
              subst heq3
              by_cases hn : n0 = n
              · subst hn
                rw [lookupEntryNamed, if_pos rfl]
                have IHn0 := IHn n0
                rw [hrest0] at IHn0
                replace IHn0 : findNamed cs2 n0 = findNamed cs n0 := IHn0
                exact Or.inl ⟨IHn0 ▸ hfnone, hfnone⟩
              · rw [lookupEntryNamed, if_neg (by simpa using hn)]
                exact IHn n
            · have hsub := (IH fuel2 (Nat.lt_succ_of_lt hlt)).1 m subEs c (path ++ [n0])
                c2 hwn hwnode
              obtain ⟨hname, hkind, hform⟩ := hsub
              obtain ⟨nmc, kkc, cscc⟩ := c
              obtain ⟨nmc2, kkc2, cscc2⟩ := c2
              replace hname : nmc2 = nmc := hname
              replace hkind : kkc2 = kkc := hkind
              subst hname; subst hkind
              have hnmc : n0 = nmc2 := (findNamed_name cs2 n0 _ hfc).symm
              subst hnmc
              have hrepl := findNamed_replaceNamed cs2 n0 (FileTree.node n0 kkc2 cscc2) rfl
              by_cases hn : n0 = n
              · subst hn
                rw [lookupEntryNamed, if_pos rfl]
                have IHn0 := IHn n0
                rw [hrest0] at IHn0
                replace IHn0 : findNamed cs2 n0 = findNamed cs n0 := IHn0
                refine Or.inr ⟨n0, kkc2, cscc, cscc2, IHn0 ▸ hfc, ?_, ?_⟩
                · rw [hrepl n0, if_pos ⟨rfl, by rw [hfc]; rfl⟩]
                · intro q hq
                  exact hform q hq
              · rw [lookupEntryNamed, if_neg (by simpa using hn)]
                have heqn : findNamed (replaceNamed cs2 n0 (FileTree.node n0 kkc2 cscc2)) n =
                    findNamed cs2 n := by
                  rw [hrepl n, if_neg (fun hc => hn hc.1.symm)]
                have IHnn := IHn n
                cases hlk2 : lookupEntryNamed rest n with
                | none =>
                  rw [hlk2] at IHnn
                  replace IHnn : findNamed cs2 n = findNamed cs n := IHnn
                  exact heqn.trans IHnn
                | some fsn2 =>
                  cases fsn2 with
                  | file =>
                    rw [hlk2] at IHnn
                    replace IHnn : findNamed cs2 n = findNamed cs n := IHnn
                    exact heqn.trans IHnn
                  | dir subEs2 =>
                    rw [hlk2] at IHnn
                    replace IHnn : (findNamed cs n = none ∧ findNamed cs2 n = none) ∨
                      (∃ nm2 kk2 csc2 csc3x, findNamed cs n = some (.node nm2 kk2 csc2) ∧
                        findNamed cs2 n = some (.node nm2 kk2 csc3x) ∧
                        ∀ q : List String, q ≠ [] →
                          providersAtPath csc3x q =
                            providersAtPath csc2 q ++
                              (if hasFileAt subEs2 q then [m] else [])) := IHnn
                    rcases IHnn with ⟨ha, hb⟩ | ⟨nm2, kk2, csc2, csc3x, ha, hb, hc⟩
                    · exact Or.inl ⟨ha, heqn.trans hb⟩
                    · exact Or.inr ⟨nm2, kk2, csc2, csc3x, ha, heqn.trans hb, hc⟩

theorem orderContrib_cons (inst : MergeInstance) (e : ModOrderEntry)
    (rest : List ModOrderEntry) (q : List String) :
    orderContrib inst (e :: rest) q =
      (if eligible inst e && providesAt inst e.index q then [e.index] else []) ++
        orderContrib inst rest q := by
  cases he : eligible inst e <;> cases hp : providesAt inst e.index q <;>
    simp [orderContrib, List.filter_cons, he, hp]

theorem instFsWF_fsdir (inst : MergeInstance) (h : instFsWF inst = true) (i : Nat)
    (decl : ModDeclaration) (es : FsEntries) (hd : inst.mods[i]? = some decl)
    (hes : inst.fsdir decl.name = some es) : wfE es = true := by
  rw [instFsWF, List.all_eq_true] at h
  have h2 := h decl (List.getElem?_mem hd)
  replace h2 : (match inst.fsdir decl.name with
    | some es => wfE es
    | none => true) = true := h2
  rw [hes] at h2
  exact h2

/-- The mod loop of `build_path_tree`, folded over the provider formula of
`walk_spec`: processing a list of order entries appends, at every non-empty
path, exactly the eligible providing entries' indices in iteration order. -/
theorem buildPathTreeGo_providers (fuel : Nat) (inst : MergeInstance)
    (hwf : instFsWF inst = true) :
    ∀ (entries : List ModOrderEntry) (t t2 : FileTree),
      buildPathTreeGo fuel inst entries t = .ok t2 →
      t2.name = t.name ∧ t2.kind = t.kind ∧
      ∀ q : List String, q ≠ [] →
        providersAtPath t2.children q =
          providersAtPath t.children q ++ orderContrib inst entries q := by
  intro entries
  induction entries with
  | nil =>
    intro t t2 h
    rw [buildPathTreeGo] at h
    cases Except.ok.inj h
    refine ⟨rfl, rfl, ?_⟩
    intro q _
    simp [orderContrib]
  | cons e rest ih =>
    intro t t2 h
    rw [buildPathTreeGo] at h
    by_cases hen : e.enabled = false
    · rw [if_pos hen] at h
      obtain ⟨h1, h2, h3⟩ := ih t t2 h
      refine ⟨h1, h2, ?_⟩
      intro q hq
      have helig : eligible inst e = false := by simp [eligible, hen]
      rw [h3 q hq, orderContrib_cons, helig]
      simp
    · rw [if_neg hen] at h
      replace hen : e.enabled = true := by
        cases he2 : e.enabled
        · exact absurd he2 hen
        · rfl
      cases hd : inst.mods[e.index]? with
      | none => rw [hd] at h; exact absurd h (by simp)
      | some decl =>
        rw [hd] at h
        replace h : (if decl.kind = ModEntryKind.separator then
            buildPathTreeGo fuel inst rest t
          else
            match inst.fsdir decl.name with
            | none => Except.error (withContext inst decl UnresolvedErr.io)
            | some es =>
              match walkNode fuel e.index es t ["."] with
              | Except.ok t1 => buildPathTreeGo fuel inst rest t1
              | Except.error err => Except.error (withContext inst decl err)) =
            Except.ok t2 := h
        by_cases hsep : decl.kind = ModEntryKind.separator
        · rw [if_pos hsep] at h
          obtain ⟨h1, h2, h3⟩ := ih t t2 h
          refine ⟨h1, h2, ?_⟩
          intro q hq
          have helig : eligible inst e = false := by simp [eligible, hd, hsep]
          rw [h3 q hq, orderContrib_cons, helig]
          simp
        · rw [if_neg hsep] at h
          have hkind : decl.kind = ModEntryKind.mod := by
            cases hk : decl.kind
            · rfl
            · exact absurd hk hsep
          cases hfs : inst.fsdir decl.name with
          | none => rw [hfs] at h; exact absurd h (by simp)
          | some es =>
            rw [hfs] at h
            replace h : (match walkNode fuel e.index es t ["."] with
              | Except.ok t1 => buildPathTreeGo fuel inst rest t1
              | Except.error err => Except.error (withContext inst decl err)) =
                Except.ok t2 := h
            cases hw : walkNode fuel e.index es t ["."] with
            | error err => rw [hw] at h; exact absurd h (by simp)
            | ok t1 =>
              rw [hw] at h
              replace h : buildPathTreeGo fuel inst rest t1 = .ok t2 := h
              have hwfes : wfE es = true := instFsWF_fsdir inst hwf e.index decl es hd hfs
              obtain ⟨hn1, hk1, hf1⟩ := (walk_spec fuel).1 e.index es t ["."] t1 hwfes hw
              obtain ⟨h1, h2, h3⟩ := ih t1 t2 h
              refine ⟨h1.trans hn1, h2.trans hk1, ?_⟩
              intro q hq
              have helig : eligible inst e = true := by simp [eligible, hd, hen, hkind]
              have hprov : providesAt inst e.index q = hasFileAt es q := by
                rw [providesAt, hd]
                show (match inst.fsdir decl.name with
                  | some es => hasFileAt es q
                  | none => false) = hasFileAt es q
                rw [hfs]
              rw [h3 q hq, hf1 q hq, orderContrib_cons, helig, hprov,
                List.append_assoc]
              simp

theorem navTree_providers : ∀ (p : List String) (t c : FileTree) (ps : List Nat),
    p ≠ [] → navTree t p = some c → c.kind = .file ps →
    providersAtPath t.children p = ps := by
  intro p
  induction p with
  | nil => intro t c ps hp _ _; exact absurd rfl hp
  | cons n rest ih =>
    intro t c ps _ hnav hkind
    rw [navTree] at hnav
    cases hf : findNamed t.children n with
    | none => rw [hf] at hnav; exact absurd hnav (by simp)
    | some c1 =>
      rw [hf] at hnav
      replace hnav : navTree c1 rest = some c := hnav
      obtain ⟨nm1, k1, cs1⟩ := c1
      cases rest with
      | nil =>
        rw [navTree] at hnav
        cases Option.some.inj hnav
        replace hkind : k1 = .file ps := hkind
        subst hkind
        rw [providersAtPath, hf]
      | cons r2 rrest =>
        rw [providersAtPath, hf]
        exact ih (FileTree.node nm1 k1 cs1) c ps (by simp) hnav hkind

theorem orderContrib_reverse (inst : MergeInstance) (l : List ModOrderEntry)
    (q : List String) :
    orderContrib inst l.reverse q = (orderContrib inst l q).reverse := by
  rw [orderContrib, orderContrib, List.filter_reverse, List.map_reverse,
    List.filter_reverse]

/-- **C1.**  `build_path_tree` iterates the active mod order in reverse
(highest priority first), so the `providing_mods` recorded in any file node
of a successfully built tree are exactly the eligible (enabled,
non-separator) entries providing that path, ordered highest priority first:
the head of the list is the entry that appeared last in the profile's order
among those providing the path. -/
theorem build_path_tree_providers_ordered (fuel : Nat) (inst : MergeInstance)
    (t c : FileTree) (p : List String) (ps : List Nat)
    (hwf : instFsWF inst = true)
    (hb : buildPathTree fuel inst = .ok t)
    (hp : p ≠ []) (hnav : navTree t p = some c) (hkind : c.kind = .file ps) :
    ps = orderedProviders inst p ∧
    ps.head? = (orderContrib inst inst.modOrder p).getLast? := by
  have hgo := buildPathTreeGo_providers fuel inst hwf inst.modOrder.reverse rootTree t hb
  have hprov := hgo.2.2 p hp
  rw [show rootTree.children = ([] : FileChildren) from rfl,
    providersAtPath_nil_children, List.nil_append] at hprov
  have hps : ps = orderContrib inst inst.modOrder.reverse p :=
    (navTree_providers p t c ps hp hnav hkind).symm.trans hprov
  refine ⟨hps, ?_⟩
  rw [hps, orderContrib_reverse, List.head?_reverse]

/-- The provider-order theorem applied to the two-mod `cfg.ini` instance:
the file node records `[1, 0]` — mod `B` (order position 1, highest
priority) first. -/
theorem build_path_tree_providers_ordered_witness :
    instFsWF instW2 = true ∧
    buildPathTree 3 instW2 =
      .ok (.node "." .dir [.node "cfg.ini" (.file [1, 0]) []]) ∧
    ([1, 0] = orderedProviders instW2 ["cfg.ini"] ∧
      ([1, 0] : List Nat).head? =
        (orderContrib instW2 instW2.modOrder ["cfg.ini"]).getLast?) := by
  refine ⟨by decide, rfl, ?_⟩
  exact build_path_tree_providers_ordered 3 instW2
    (.node "." .dir [.node "cfg.ini" (.file [1, 0]) []])
    (.node "cfg.ini" (.file [1, 0]) []) ["cfg.ini"] [1, 0]
    (by decide) rfl (by decide) rfl rfl

theorem mergeLevel_levelNamesOk (m : Nat) :
    ∀ (es : FsEntries) (cs cs2 : FileChildren) (path : List String),
      mergeLevel m es cs path = .ok cs2 → levelNamesOk es = true := by
  intro es
  induction es with
  | nil => intro cs cs2 path _; rfl
  | cons p rest ih =>
    intro cs cs2 path h
    obtain ⟨name, fsn⟩ := p
    cases name with
    | none => rw [mergeLevel] at h; exact absurd h (by simp)
    | some n0 =>
      rw [mergeLevel] at h
      cases hme : mergeEntry m n0 fsn.isDir cs path with
      | error e => rw [hme] at h; exact absurd h (by simp)
      | ok cs1 =>
        rw [hme] at h
        replace h : mergeLevel m rest cs1 path = .ok cs2 := h
        rw [levelNamesOk]
        simp [ih cs1 cs2 path h]

theorem walkSubdirs_preserves_isSome (fuel : Nat) (m : Nat) (es : FsEntries)
    (cs : FileChildren) (path : List String) (cs3 : FileChildren)
    (hwf : wfE es = true) (h : walkSubdirs fuel m es cs path = .ok cs3) (n : String) :
    (findNamed cs3 n).isSome = (findNamed cs n).isSome := by
  have WS := (walk_spec fuel).2 m es cs path cs3 hwf h n
  cases hlk : lookupEntryNamed es n with
  | none =>
    rw [hlk] at WS
    replace WS : findNamed cs3 n = findNamed cs n := WS
    rw [WS]
  | some fsn =>
    cases fsn with
    | file =>
      rw [hlk] at WS
      replace WS : findNamed cs3 n = findNamed cs n := WS
      rw [WS]
    | dir subEs =>
      rw [hlk] at WS
      replace WS : (findNamed cs n = none ∧ findNamed cs3 n = none) ∨
        (∃ nm kk csc csc3, findNamed cs n = some (.node nm kk csc) ∧
          findNamed cs3 n = some (.node nm kk csc3) ∧
          ∀ q : List String, q ≠ [] →
            providersAtPath csc3 q =
              providersAtPath csc q ++ (if hasFileAt subEs q then [m] else [])) := WS
      rcases WS with ⟨ha, hb⟩ | ⟨nm, kk, csc, csc3, ha, hb, _⟩ <;> simp [ha, hb]

theorem namesValidE_of : ∀ (es : FsEntries),
    wfE es = true → levelNamesOk es = true →
    (∀ n subEs, lookupEntryNamed es n = some (.dir subEs) → namesValidE subEs = true) →
    namesValidE es = true := by
  intro es
  induction es with
  | nil => intro _ _ _; rfl
  | cons p rest ih =>
    intro hwf hlv hsub
    obtain ⟨name, fsn⟩ := p
    rw [wfE] at hwf
    simp only [Bool.and_eq_true] at hwf
    obtain ⟨⟨h1, _⟩, hwr⟩ := hwf
    rw [levelNamesOk] at hlv
    simp only [Bool.and_eq_true] at hlv
    obtain ⟨hns, hlvr⟩ := hlv
    cases name with
    | none => exact absurd hns (by simp)
    | some n0 =>
      rw [namesValidE]
      simp only [Bool.and_eq_true]
      refine ⟨⟨rfl, ?_⟩, ?_⟩
      · cases fsn with
        | file => rfl
        | dir subEs =>
          show namesValidE subEs = true
          exact hsub n0 subEs (by rw [lookupEntryNamed, if_pos rfl])
      · refine ih hwr hlvr ?_
        intro n subEs hlk
        by_cases hn : n0 = n
        · subst hn
          rw [lookupEntryNamed_none rest n0 (by simpa using h1)] at hlk
          exact Option.noConfusion hlk
        · refine hsub n subEs ?_
          rw [lookupEntryNamed, if_neg (by simpa using hn)]
          exact hlk

/-! The companion induction for the panic claim: a successful walk has
unwrapped every visited entry name, so every name in every visited listing
is valid UTF-8. -/

theorem names_spec : ∀ (fuel : Nat),
    (∀ (m : Nat) (es : FsEntries) (t : FileTree) (path : List String) (t2 : FileTree),
      wfE es = true → walkNode fuel m es t path = .ok t2 → namesValidE es = true) ∧
    (∀ (m : Nat) (es : FsEntries) (cs : FileChildren) (path : List String)
        (cs3 : FileChildren),
      wfE es = true → walkSubdirs fuel m es cs path = .ok cs3 →
      ∀ (n : String) (subEs : FsEntries), lookupEntryNamed es n = some (.dir subEs) →
        (findNamed cs n).isSome = true → namesValidE subEs = true) := by
  intro fuel
  induction fuel using Nat.strong_induction_on with
  | _ fuel IH =>
  cases fuel with
  | zero =>
    constructor
    · intro m es t path t2 _ h
      exact absurd h (by rw [walkNode]; simp)
    · intro m es cs path cs3 _ h _ _ _ _
      exact absurd h (by rw [walkSubdirs]; simp)
  | succ f =>
    constructor
    · intro m es t path t2 hwf h
      obtain ⟨nm, k, cs⟩ := t
      obtain ⟨cs2, cs3, hm, hs, rfl⟩ := walkNode_ok_children f m es nm k cs path t2 h
      refine namesValidE_of es hwf (mergeLevel_levelNamesOk m es cs cs2 path hm) ?_
      intro n subEs hlk
      have ML := mergeLevel_desc m es cs cs2 path hwf hm n
      rw [hlk] at ML
      replace ML : (∃ csc, findNamed cs n = some (.node n .dir csc) ∧
          findNamed cs2 n = some (.node n .dir csc)) ∨
        (findNamed cs n = none ∧ findNamed cs2 n = some (.node n .dir [])) := ML
      have hsome : (findNamed cs2 n).isSome = true := by
        rcases ML with ⟨csc, _, hb⟩ | ⟨_, hb⟩ <;> rw [hb] <;> rfl
      exact (IH f (Nat.lt_succ_self f)).2 m es cs2 path cs3 hwf hs n subEs hlk hsome
    · intro m es cs path cs3 hwf h n subEs hlk hsome
      cases es with
      | nil => exact Option.noConfusion hlk
      | cons p rest =>
        obtain ⟨name, fsn⟩ := p
        rw [walkSubdirs] at h
        cases hs : walkSubdirs f m rest cs path with
        | error e => rw [hs] at h; exact absurd h (by simp)
        | ok cs2 =>
        rw [hs] at h
        rw [wfE] at hwf
        simp only [Bool.and_eq_true] at hwf
        obtain ⟨⟨h1, hwn⟩, hwr⟩ := hwf
        cases name with
        | none =>
          cases fsn with
          | file =>
            replace h : (Except.ok cs2 : Except UnresolvedErr FileChildren) = .ok cs3 := h
            cases Except.ok.inj h
            exact (IH f (Nat.lt_succ_self f)).2 m rest cs path cs3 hwr hs n subEs hlk hsome
          | dir subEs0 =>
            replace h : (Except.ok cs2 : Except UnresolvedErr FileChildren) = .ok cs3 := h
            cases Except.ok.inj h
            exact (IH f (Nat.lt_succ_self f)).2 m rest cs path cs3 hwr hs n subEs hlk hsome
        | some n0 =>
          by_cases hn : n0 = n
          · subst hn
            rw [lookupEntryNamed, if_pos rfl] at hlk
            cases fsn with
            | file => exact absurd hlk (by simp)
            | dir subEs0 =>
              injection Option.some.inj hlk with e
              subst e
              replace h : walkChild f m subEs0 cs2 n0 path = .ok cs3 := h
              rw [wfN] at hwn
              rcases walkChild_cases f m subEs0 cs2 n0 path cs3 h with
                ⟨hfnone, _⟩ | ⟨c, c2, fuel2, hlt, hfc, hwnode, _⟩
              · have hpres := walkSubdirs_preserves_isSome f m rest cs path cs2 hwr hs n0
                rw [hfnone, hsome] at hpres
                exact absurd hpres (by simp)
              · exact (IH fuel2 (Nat.lt_succ_of_lt hlt)).1 m subEs0 c (path ++ [n0])
                  c2 hwn hwnode
          · rw [lookupEntryNamed, if_neg (by simpa using hn)] at hlk
            cases fsn with
            | file =>
              replace h : (Except.ok cs2 : Except UnresolvedErr FileChildren) = .ok cs3 := h
              cases Except.ok.inj h
              exact (IH f (Nat.lt_succ_self f)).2 m rest cs path cs3 hwr hs n subEs hlk hsome
            | dir subEs0 =>
              exact (IH f (Nat.lt_succ_self f)).2 m rest cs path cs2 hwr hs n subEs hlk hsome

theorem buildPathTreeGo_namesValid (fuel : Nat) (inst : MergeInstance)
    (hwf : instFsWF inst = true) :
    ∀ (entries : List ModOrderEntry) (t t2 : FileTree),
      buildPathTreeGo fuel inst entries t = .ok t2 →
      ∀ e ∈ entries, e.enabled = true →
        ∀ decl, inst.mods[e.index]? = some decl → decl.kind = ModEntryKind.mod →
          ∀ es, inst.fsdir decl.name = some es → namesValidE es = true := by
  intro entries
  induction entries with
  | nil =>
    intro t t2 _ e he
    exact absurd he (by simp)
  | cons e0 rest ih =>
    intro t t2 h e he hen decl hd hkind es hes
    rw [buildPathTreeGo] at h
    rcases List.mem_cons.1 he with rfl | hmem
    · rw [if_neg (by simp [hen])] at h
      rw [hd] at h
      replace h : (if decl.kind = ModEntryKind.separator then
          buildPathTreeGo fuel inst rest t
        else
          match inst.fsdir decl.name with
          | none => Except.error (withContext inst decl UnresolvedErr.io)
          | some es =>
            match walkNode fuel e.index es t ["."] with
            | Except.ok t1 => buildPathTreeGo fuel inst rest t1
            | Except.error err => Except.error (withContext inst decl err)) =
          Except.ok t2 := h
      rw [if_neg (by simp [hkind])] at h
      rw [hes] at h
      replace h : (match walkNode fuel e.index es t ["."] with
        | Except.ok t1 => buildPathTreeGo fuel inst rest t1
        | Except.error err => Except.error (withContext inst decl err)) =
          Except.ok t2 := h
      cases hw : walkNode fuel e.index es t ["."] with
      | error err => rw [hw] at h; exact absurd h (by simp)
      | ok t1 =>
        have hwfes : wfE es = true := instFsWF_fsdir inst hwf e.index decl es hd hes
        exact (names_spec fuel).1 e.index es t ["."] t1 hwfes hw
    · by_cases hen0 : e0.enabled = false
      · rw [if_pos hen0] at h
        exact ih t t2 h e hmem hen decl hd hkind es hes
      · rw [if_neg hen0] at h
        cases hd0 : inst.mods[e0.index]? with
        | none => rw [hd0] at h; exact absurd h (by simp)
        | some decl0 =>
          rw [hd0] at h
          replace h : (if decl0.kind = ModEntryKind.separator then
              buildPathTreeGo fuel inst rest t
            else
              match inst.fsdir decl0.name with
              | none => Except.error (withContext inst decl0 UnresolvedErr.io)
              | some es =>
                match walkNode fuel e0.index es t ["."] with
                | Except.ok t1 => buildPathTreeGo fuel inst rest t1
                | Except.error err => Except.error (withContext inst decl0 err)) =
              Except.ok t2 := h
          by_cases hsep0 : decl0.kind = ModEntryKind.separator
          · rw [if_pos hsep0] at h
            exact ih t t2 h e hmem hen decl hd hkind es hes
          · rw [if_neg hsep0] at h
            cases hfs0 : inst.fsdir decl0.name with
            | none => rw [hfs0] at h; exact absurd h (by simp)
            | some es0 =>
              rw [hfs0] at h
              replace h : (match walkNode fuel e0.index es0 t ["."] with
                | Except.ok t1 => buildPathTreeGo fuel inst rest t1
                | Except.error err => Except.error (withContext inst decl0 err)) =
                  Except.ok t2 := h
              cases hw0 : walkNode fuel e0.index es0 t ["."] with
              | error err => rw [hw0] at h; exact absurd h (by simp)
              | ok t1 =>
                rw [hw0] at h
                replace h : buildPathTreeGo fuel inst rest t1 = .ok t2 := h
                exact ih t1 t2 h e hmem hen decl hd hkind es hes

/-- **C9.**  `build_path_tree` returning normally requires every entry name
visited through an enabled, in-range, non-separator mod's directory to be
valid UTF-8 (a non-UTF-8 name — `none` in the embedding — makes the walk's
name `.unwrap()` panic instead of returning an error). -/
theorem build_ok_requires_utf8_names (fuel : Nat) (inst : MergeInstance) (t : FileTree)
    (hwf : instFsWF inst = true) (hb : buildPathTree fuel inst = .ok t) :
    ∀ e ∈ inst.modOrder, e.enabled = true →
      ∀ decl, inst.mods[e.index]? = some decl → decl.kind = ModEntryKind.mod →
        ∀ es, inst.fsdir decl.name = some es → namesValidE es = true := by
  intro e he
  exact buildPathTreeGo_namesValid fuel inst hwf inst.modOrder.reverse rootTree t hb e
    (List.mem_reverse.mpr he)

/-- The UTF-8 requirement applied to the two-mod `cfg.ini` instance, whose
build succeeds. -/
theorem build_ok_requires_utf8_names_witness :
    namesValidE [(some "cfg.ini", FsNode.file)] = true :=
  build_ok_requires_utf8_names 3 instW2
    (.node "." .dir [.node "cfg.ini" (.file [1, 0]) []]) (by decide) rfl
    ⟨1, true⟩ (by decide) rfl ⟨"B", .mod⟩ rfl rfl [(some "cfg.ini", FsNode.file)] rfl

/-- A walk that meets a non-UTF-8 name surfaces the distinguished panic
outcome, not an ordinary build error. -/
theorem build_panics_on_non_utf8_name :
    buildPathTree 10 cex9 = .error .panicked := rfl

/-- **C3.**  On the dir-vs-file conflict between `A` (directory `x`) and `B`
(file `x`), the `TypeMismatch` message names the path and the walked mod `A`,
but the conflicting-mods list is empty — `B` is not named, because the scan
stats the parent directory path (where `B` has a directory, matching the
expectation) rather than the conflicting node's own path. -/
theorem type_mismatch_names_one_mod :
    buildPathTree 3 cex3 = .error (.typeMismatch
      ("'x' is used as both a directory and a file by different mods: " ++
        "it's a directory in 'A', but a file in ''")) := rfl

/-- **C4.**  The enrichment scan does not skip `Separator` declarations — on
`cex4a` it stats the separator `S`'s nonexistent directory and turns the
whole error into `Io` — and it stats the parent path, not the node's full
relative path: on `cex4b` the innocent mod `C` (which has directory `d` but
nothing at `d/x`) is reported as a conflicting mod alongside `B`. -/
theorem with_context_parent_path_and_separators :
    buildPathTree 10 cex4a = .error .io ∧
    buildPathTree 10 cex4b = .error (.typeMismatch
      ("'x' is used as both a directory and a file by different mods: " ++
        "it's a file in 'A', but a directory in 'B', 'C'")) := ⟨rfl, rfl⟩

end Mmm
